import Mathlib

/-!
Verification development for the formal-environment builder
(`parse_sv.py`, `vhdl_to_sv.py`, `fv_env_build.py`).

The Python sources are shallowly embedded: every function is translated to an
executable Lean definition operating on `String` / `List Char`, mirroring the
Python string and `re` semantics used by the code (ASCII inputs; `str.strip`
strips the six ASCII whitespace characters; `str.splitlines` is modelled for
newline-only text, which is what the generators produce and what the claims
quantify over).
-/

namespace EnvBuilder

/-- The characters stripped by Python `str.strip()` on ASCII text. -/
def isPySpace (c : Char) : Bool :=
  c = ' ' || c = '\t' || c = '\n' || c = '\r' || c = '\x0b' || c = '\x0c'

/-- Python `s.lstrip()`. -/
def lstripL (l : List Char) : List Char := l.dropWhile isPySpace

/-- Python `s.rstrip()`. -/
def rstripL (l : List Char) : List Char := (l.reverse.dropWhile isPySpace).reverse

/-- Python `s.strip()`. -/
def stripL (l : List Char) : List Char := rstripL (lstripL l)

/-- Python `s.rstrip(set)`: drop trailing characters belonging to `set`. -/
def rstripSetL (set : List Char) (l : List Char) : List Char :=
  (l.reverse.dropWhile (fun c => set.contains c)).reverse

/-- Python `s.lstrip(set)`. -/
def lstripSetL (set : List Char) (l : List Char) : List Char :=
  l.dropWhile (fun c => set.contains c)

/-- The part of `l` before the first occurrence of `sep` (Python `s.split(sep)[0]`). -/
def takeBeforeL (sep : List Char) : List Char → List Char
  | [] => []
  | c :: cs => if sep.isPrefixOf (c :: cs) then [] else c :: takeBeforeL sep cs

/-- The suffix of `l` after the first occurrence of `sep`, if any. -/
def findAfterSub (pat : List Char) : List Char → Option (List Char)
  | [] => if pat = [] then some [] else none
  | c :: cs =>
    if pat.isPrefixOf (c :: cs) then some ((c :: cs).drop pat.length)
    else findAfterSub pat cs

/-- Whether `pat` occurs as a substring (Python `pat in s`). -/
def containsSubL (pat : List Char) : List Char → Bool
  | [] => pat.isEmpty
  | c :: cs => pat.isPrefixOf (c :: cs) || containsSubL pat cs

/-- Python `s.split(sep)` for a nonempty separator: accumulator-based scan.
The fuel argument is only a structural-termination device; with
`fuel = l.length` it never runs out (each step consumes at least one
character). -/
def splitAllGo (sep : List Char) : Nat → List Char → List Char → List (List Char)
  | _, [], acc => [acc.reverse]
  | 0, l, acc => [acc.reverse ++ l]
  | fuel + 1, c :: cs, acc =>
    if sep.isPrefixOf (c :: cs) && !sep.isEmpty then
      acc.reverse :: splitAllGo sep fuel (List.drop (sep.length - 1) cs) []
    else
      splitAllGo sep fuel cs (c :: acc)

def splitAllL (sep l : List Char) : List (List Char) := splitAllGo sep l.length l []

/-- Python `s.split(sep, 1)`: split at the first occurrence only. -/
def splitOnceL (sep : List Char) : List Char → Option (List Char × List Char)
  | [] => none
  | c :: cs =>
    if sep.isPrefixOf (c :: cs) && !sep.isEmpty then
      some ([], List.drop (sep.length - 1) cs)
    else
      (splitOnceL sep cs).map (fun p => (c :: p.1, p.2))

/-- Python `s.split()` (whitespace split, empty fields dropped): worker. -/
def splitWsGo : List Char → List Char → List (List Char)
  | [], acc => if acc.isEmpty then [] else [acc.reverse]
  | c :: cs, acc =>
    if isPySpace c then
      if acc.isEmpty then splitWsGo cs [] else acc.reverse :: splitWsGo cs []
    else splitWsGo cs (c :: acc)

/-- Python `s.split()`. -/
def splitWsL (l : List Char) : List (List Char) := splitWsGo l []

/-- Python `str.lower()` on ASCII text. -/
def toLowerL (l : List Char) : List Char := l.map Char.toLower

/-- Python `str.upper()` on ASCII text. -/
def toUpperL (l : List Char) : List Char := l.map Char.toUpper

/-- Python `s.replace(pat, rep)` (left-to-right, non-overlapping), `pat`
nonempty; fuel as in `splitAllGo`. -/
def replaceAllGo (pat rep : List Char) : Nat → List Char → List Char
  | _, [] => []
  | 0, l => l
  | fuel + 1, c :: cs =>
    if pat.isPrefixOf (c :: cs) && !pat.isEmpty then
      rep ++ replaceAllGo pat rep fuel (List.drop (pat.length - 1) cs)
    else
      c :: replaceAllGo pat rep fuel cs

def replaceAllL (pat rep l : List Char) : List Char := replaceAllGo pat rep l.length l

/-- Python `s.splitlines()` for newline-only text. -/
def splitlinesL : List Char → List (List Char)
  | [] => []
  | c :: cs =>
    if c = '\n' then [] :: splitlinesL cs
    else
      match splitlinesL cs with
      | [] => [[c]]
      | l :: ls => (c :: l) :: ls

/-- Python `f.readlines()` for newline-only text (keeps the line terminators). -/
def splitKeepEndsL : List Char → List (List Char)
  | [] => []
  | c :: cs =>
    if c = '\n' then ['\n'] :: splitKeepEndsL cs
    else
      match splitKeepEndsL cs with
      | [] => [[c]]
      | l :: ls => (c :: l) :: ls

/-- Python `"".join(...)`. -/
def concatStrs (ls : List String) : String := ⟨(ls.map String.data).flatten⟩

/-- Python `"\n".join(...)` at the character-list level. -/
def joinWithNL : List (List Char) → List Char
  | [] => []
  | [l] => l
  | l :: ls => l ++ '\n' :: joinWithNL ls

/-- Python `"\n".join(...)` on strings. -/
def joinNLStr (ls : List String) : String := ⟨joinWithNL (ls.map String.data)⟩

/-- Python `s.strip()` on strings. -/
def pyStrip (s : String) : String := ⟨stripL s.data⟩

/-- Python `s.splitlines()` on strings. -/
def pySplitlines (s : String) : List String := (splitlinesL s.data).map (fun l => (⟨l⟩ : String))

/-!  ### `parse_sv.py`  -/

/-- The direction/type keywords dropped by `parse_sv_signal_info`. -/
def svKeywords : List (List Char) := ["input".data, "logic".data, "wire".data, "reg".data]

/-- `parse_sv.parse_sv_signal_info`: parse one declaration line into
`(signal name, range text)`.  The Python function returns `(None, None)` for a
non-`input` line and `(name-or-None, range-string)` otherwise; the second
component is `some ""` when no bracketed range is present. -/
def parse_sv_signal_info (line : String) : Option String × Option String :=
  let l1 := stripL (takeBeforeL "//".data line.data)
  let l2 := stripL (rstripSetL [',', ';'] l1)
  if "input".data.isPrefixOf l2 then
    let tokens := (splitWsL l2).filter (fun t => !(svKeywords.contains t))
    match tokens with
    | [] => (none, some "")
    | t :: rest =>
      if "[".data.isPrefixOf t then
        ((rest.head?).map (fun n => (⟨n⟩ : String)), some (⟨t⟩ : String))
      else (some (⟨t⟩ : String), some "")
  else (none, none)

/-- `parse_sv.parse_sv_parameters_info`: per line, drop the trailing `//`
comment, strip, drop trailing commas, drop a leading `"parameter"` prefix
(`str.startswith`), and if `=` remains split once on the first `=`. -/
def parse_sv_parameters_info : List String → List (String × String)
  | [] => []
  | line :: rest =>
    let l1 := rstripSetL [','] (stripL (takeBeforeL "//".data line.data))
    let l2 := if "parameter".data.isPrefixOf l1 then stripL (l1.drop 9) else l1
    if l2.contains '=' then
      match splitOnceL ['='] l2 with
      | some (n, d) => ((⟨stripL n⟩ : String), (⟨stripL d⟩ : String)) :: parse_sv_parameters_info rest
      | none => parse_sv_parameters_info rest
    else parse_sv_parameters_info rest

/-- Stop condition for the lazy capture of `re.match(r"//\s*(.*?)\s+INTERFACE", ..., re.I)`:
the current suffix starts with whitespace and, after the whitespace run,
case-insensitively starts with `INTERFACE`. -/
def labelStop (r : List Char) : Bool :=
  match r with
  | [] => false
  | c :: _ => isPySpace c && "INTERFACE".data.isPrefixOf (toUpperL (r.dropWhile isPySpace))

/-- Scan for the first position satisfying `labelStop`; the accumulated prefix
is the regex capture. -/
def labelScanGo (acc : List Char) : List Char → Option (List Char)
  | [] => none
  | c :: cs => if labelStop (c :: cs) then some acc.reverse else labelScanGo (c :: acc) cs

/-- Group 1 of `re.match(r"//\s*(.*?)\s+INTERFACE", stripped, re.IGNORECASE)`.
The greedy `\s*` first consumes the maximal whitespace run after `//`; the lazy
capture then ends at the first point from which `\s+INTERFACE` matches.  If no
such point exists, the engine backtracks `\s*` by one character, which succeeds
with an empty capture exactly when the run is nonempty and `INTERFACE`
case-insensitively follows it directly. -/
def ifaceLabel (stripped : List Char) : Option (List Char) :=
  if "//".data.isPrefixOf stripped then
    let t := stripped.drop 2
    let m := t.takeWhile isPySpace
    let r := t.dropWhile isPySpace
    match labelScanGo [] r with
    | some cap => some cap
    | none =>
      if !m.isEmpty && "INTERFACE".data.isPrefixOf (toUpperL r) then some [] else none
  else none

/-- The normalized interface name the sources derive from an annotation line:
`match.group(1).strip().lower().replace(" ", "_")`. -/
def ifaceName (stripped : List Char) : Option String :=
  (ifaceLabel stripped).map (fun g => (⟨replaceAllL " ".data "_".data (toLowerL (stripL g))⟩ : String))

/-- Whether the source's annotation branch fires:
`stripped.startswith("//") and "INTERFACE" in stripped.upper()`. -/
def isIfaceComment (stripped : List Char) : Bool :=
  "//".data.isPrefixOf stripped && containsSubL "INTERFACE".data (toUpperL stripped)

/-- One interface group of `parse_sv.parse_sv_interface_info`. -/
structure SvInterface where
  if_name : String
  content : List (Option String × Option String)
deriving DecidableEq, Repr

/-- Loop state of `parse_sv_interface_info`.  Python appends the *reference*
`current_if` to the result list, so an annotation line whose regex fails leaves
already-appended copies aliased to the still-open group; `aliasN` counts those
trailing aliased copies (the realized list is `pre ++ replicate aliasN cur`). -/
structure PState where
  pre : List SvInterface
  cur : Option (SvInterface × Nat)
  inside : Bool

/-- One loop iteration of `parse_sv.parse_sv_interface_info`. -/
def parseIfStep (st : PState) (line : String) : PState :=
  let stripped := stripL line.data
  if isIfaceComment stripped then
    match st.cur, ifaceName stripped with
    | some (i, n), some nm =>
      { pre := st.pre ++ List.replicate (n + 1) i, cur := some (⟨nm, []⟩, 0), inside := true }
    | some (i, n), none =>
      { pre := st.pre, cur := some (i, n + 1), inside := st.inside }
    | none, some nm =>
      { pre := st.pre, cur := some (⟨nm, []⟩, 0), inside := true }
    | none, none => st
  else if st.inside && ("//".data.isPrefixOf stripped || stripped = [] || stripped = ");".data) then
    match st.cur with
    | some (i, n) => { pre := st.pre ++ List.replicate (n + 1) i, cur := none, inside := false }
    | none => { st with inside := false }
  else if st.inside && "input".data.isPrefixOf stripped then
    match st.cur with
    | some (i, n) =>
      { st with cur := some ({ i with content := i.content ++ [parse_sv_signal_info line] }, n) }
    | none => st
  else st

/-- `parse_sv.parse_sv_interface_info`. -/
def parse_sv_interface_info (port_lines : List String) : List SvInterface :=
  let st := port_lines.foldl parseIfStep ⟨[], none, false⟩
  st.pre ++ (match st.cur with
             | some (i, n) => List.replicate (n + 1) i
             | none => [])

/-!  ### `vhdl_to_sv.py`  -/

/-- `re.match(rf"{kw}\s*\(", stripped, re.IGNORECASE)` for `kw ∈ {generic, port}`. -/
def blockOpen (kw : String) (s : List Char) : Bool :=
  kw.data.isPrefixOf (toLowerL s) && ((s.drop kw.length).dropWhile isPySpace).head? = some '('

/-- `re.match(r"\)\s*;", stripped)`. -/
def blockClose (s : List Char) : Bool :=
  match s with
  | ')' :: t => (t.dropWhile isPySpace).head? = some ';'
  | _ => false

/-- The line scanners `read_vhdl_generics` / `read_vhdl_port`: collect the
stripped lines strictly between the `kw (` opener and the `);` closer.  The
opener test runs first on every line, exactly as in the Python loop. -/
def readBlockGo (kw : String) : List (List Char) → Bool → List String
  | [], _ => []
  | l :: ls, false =>
    if blockOpen kw (stripL l) then readBlockGo kw ls true else readBlockGo kw ls false
  | l :: ls, true =>
    let s := stripL l
    if blockOpen kw s then readBlockGo kw ls true
    else if blockClose s then []
    else (⟨s⟩ : String) :: readBlockGo kw ls true

/-- `vhdl_to_sv.read_vhdl_generics`. -/
def read_vhdl_generics (content : String) : List String :=
  readBlockGo "generic" (splitlinesL content.data) false

/-- `vhdl_to_sv.read_vhdl_port`. -/
def read_vhdl_port (content : String) : List String :=
  readBlockGo "port" (splitlinesL content.data) false

/-- `vhdl_to_sv.extract_param_name`: the text before the first `:`, trimmed. -/
def extract_param_name (line : String) : String :=
  if line.data = [] || "--".data.isPrefixOf (stripL line.data) then ""
  else
    let l := rstripSetL [';'] (stripL line.data)
    if l.contains ':' then (⟨stripL (takeBeforeL [':'] l)⟩ : String) else ""

/-- `vhdl_to_sv.extract_param_default_value`: group 1 of
`re.search(r":=\s*(.*?);?$", line)`, trimmed.  After the first `:=`, the greedy
`\s*` eats the whitespace run and the lazy capture keeps everything except a
single trailing `;`. -/
def extract_param_default_value (line : String) : String :=
  if line.data = [] || "--".data.isPrefixOf (stripL line.data) then ""
  else
    match findAfterSub ":=".data line.data with
    | none => ""
    | some rest =>
      let r := rest.dropWhile isPySpace
      let cap := if r.getLast? = some ';' then r.dropLast else r
      (⟨stripL cap⟩ : String)

/-- Classification of one VHDL generic line. -/
inductive GType
  | parameter
  | lastParameter
  | comment
  | empty
deriving DecidableEq, Repr

/-- One classified VHDL generic line (`classify_vhdl_generic_lines` entry);
`dflt` is the dictionary's `"default"` field. -/
structure GEntry where
  gtype : GType
  name : String
  dflt : String
  value : String
deriving DecidableEq, Repr

/-- Classify one generic line, knowing whether it is the final line of the block. -/
def classifyGeneric (isLast : Bool) (line : String) : GEntry :=
  let s := stripL line.data
  if s = [] then ⟨.empty, "", "", ""⟩
  else if "--".data.isPrefixOf s then ⟨.comment, "", "", (⟨s⟩ : String)⟩
  else if s.contains ';' && !isLast then
    ⟨.parameter, extract_param_name line, extract_param_default_value line, (⟨s⟩ : String)⟩
  else
    ⟨.lastParameter, extract_param_name line, extract_param_default_value line, (⟨s⟩ : String)⟩

/-- `vhdl_to_sv.classify_vhdl_generic_lines` (the Python `i < len(lines) - 1`
test is the `isLast` flag). -/
def classify_vhdl_generic_lines : List String → List GEntry
  | [] => []
  | [l] => [classifyGeneric true l]
  | l :: l' :: ls => classifyGeneric false l :: classify_vhdl_generic_lines (l' :: ls)

/-- `vhdl_to_sv.format_sv_parameters`: render one classified generic line. -/
def formatGeneric (e : GEntry) : String :=
  match e.gtype with
  | .parameter => "  parameter " ++ e.name ++ " = " ++ e.dflt ++ ","
  | .lastParameter => "  parameter " ++ e.name ++ " = " ++ e.dflt
  | .comment => "  // " ++ (⟨stripL (lstripSetL ['-'] e.value.data)⟩ : String)
  | .empty => ""

/-- `vhdl_to_sv.format_sv_parameters`. -/
def format_sv_parameters (es : List GEntry) : String := joinNLStr (es.map formatGeneric)

/-- `vhdl_to_sv.extract_signal_name`: the text before the first `:`, trimmed. -/
def extract_signal_name (line : String) : String :=
  if line.data = [] || "--".data.isPrefixOf (stripL line.data) then ""
  else
    let l := rstripSetL [';'] (stripL line.data)
    if l.contains ':' then (⟨stripL (takeBeforeL [':'] l)⟩ : String) else ""

/-- Lazy capture of the first parenthesized group, `re.search(r"\((.*?)\)", l)`:
the text between the first `(` and the first `)` after it. -/
def capToParen : List Char → Option (List Char)
  | [] => none
  | c :: cs => if c = ')' then some [] else (capToParen cs).map (fun x => c :: x)

/-- `vhdl_to_sv.extract_range`: rewrite a `(X downto Y)` range as `[X:Y]`.
When the captured text contains more than one `downto`, the Python tuple
unpacking raises `ValueError`; that crash path is modelled as `""` and is
excluded by hypothesis wherever a theorem depends on this function. -/
def extract_range (line : String) : String :=
  if "--".data.isPrefixOf (stripL line.data) then ""
  else
    match (findAfterSub ['('] line.data).bind capToParen with
    | none => ""
    | some inside =>
      if containsSubL "downto".data inside then
        match splitAllL "downto".data inside with
        | [l, r] => (⟨'[' :: stripL l ++ ':' :: stripL r ++ [']']⟩ : String)
        | _ => ""
      else ""

/-- Classification of one VHDL port line. -/
inductive PType
  | line
  | lastLine
  | comment
  | empty
deriving DecidableEq, Repr

/-- One classified VHDL port line (`classify_vhdl_port_lines` entry). -/
structure PEntry where
  ptype : PType
  name : String
  range : String
  value : String
deriving DecidableEq, Repr

/-- Classify one VHDL port line. -/
def classifyPort (line : String) : PEntry :=
  let s := stripL line.data
  if s = [] then ⟨.empty, "", "", ""⟩
  else if "--".data.isPrefixOf s then ⟨.comment, "", "", (⟨s⟩ : String)⟩
  else if s.contains ';' then
    ⟨.line, extract_signal_name line, extract_range line, (⟨s⟩ : String)⟩
  else
    ⟨.lastLine, extract_signal_name line, extract_range line, (⟨s⟩ : String)⟩

/-- `vhdl_to_sv.classify_vhdl_port_lines`. -/
def classify_vhdl_port_lines (lines : List String) : List PEntry :=
  lines.map classifyPort

/-- `vhdl_to_sv.format_sv_ports`: render one classified port line (comments keep
their `lstrip('-')` text, no further trimming). -/
def formatPort (e : PEntry) : String :=
  match e.ptype with
  | .line => "  input " ++ e.range ++ " " ++ e.name ++ ","
  | .lastLine => "  input " ++ e.range ++ " " ++ e.name
  | .comment => "  //" ++ (⟨lstripSetL ['-'] e.value.data⟩ : String)
  | .empty => ""

/-- `vhdl_to_sv.format_sv_ports`. -/
def format_sv_ports (es : List PEntry) : List String := es.map formatPort

/-- `vhdl_to_sv.generate_sv_module`: emit the translated SystemVerilog module
declaration (`"\n".join` of header, parameter block, port block, footer). -/
def generate_sv_module (content top : String) : String :=
  let ports := classify_vhdl_port_lines (read_vhdl_port content)
  let gens := classify_vhdl_generic_lines (read_vhdl_generics content)
  joinNLStr (["module " ++ top, "  #(", format_sv_parameters gens, "  )", "  ("]
             ++ format_sv_ports ports ++ ["  );", "endmodule"])

/-!  ### `fv_env_build.py`  -/

/-- Consume a literal prefix, or fail. -/
def dropPre (p l : List Char) : Option (List Char) :=
  if p.isPrefixOf l then some (l.drop p.length) else none

/-- The remainders a greedy `\s+` can leave, longest run first (backtracking
order); empty when no leading whitespace exists. -/
def wsPlusAttempts (l : List Char) : List (List Char) :=
  let m := (l.takeWhile isPySpace).length
  (List.range m).map (fun j => l.drop (m - j))

/-- Lazy capture of `(.*?)\)\s*\(` (DOTALL): the shortest prefix whose next
character is `)` followed, after optional whitespace, by `(`. -/
def capCloseParen : List Char → Option (List Char)
  | [] => none
  | c :: rest =>
    if c = ')' && (rest.dropWhile isPySpace).head? = some '(' then some []
    else (capCloseParen rest).map (fun l => c :: l)

/-- Attempt of `re.search(rf"module\s+{top}\s*#\((.*?)\)\s*\(", ..., re.DOTALL)`
at one start position. -/
def tryParamsAt (top : List Char) (l : List Char) : Option (List Char) :=
  (dropPre "module".data l).bind (fun r1 =>
    (wsPlusAttempts r1).findSome? (fun r2 =>
      (dropPre top r2).bind (fun r3 =>
        (dropPre "#(".data (r3.dropWhile isPySpace)).bind capCloseParen)))

/-- Lazy capture of `(.*?)\);` (DOTALL): the shortest prefix followed by the
literal `);`. -/
def capParenSemi : List Char → Option (List Char)
  | [] => none
  | [_] => none
  | c :: d :: rest =>
    if c = ')' && d = ';' then some []
    else (capParenSemi (d :: rest)).map (fun l => c :: l)

/-- `\s*\((.*?)\);` from a given point. -/
def afterParen (r : List Char) : Option (List Char) :=
  (dropPre "(".data (r.dropWhile isPySpace)).bind capParenSemi

/-- Backtracking over the closes of the optional `#(...)` group: at each `)`
try to finish with `\s*\((.*?)\);`, else extend the group lazily. -/
def scanGroupCloses : List Char → Option (List Char)
  | [] => none
  | c :: rest =>
    if c = ')' then (afterParen rest).orElse (fun _ => scanGroupCloses rest)
    else scanGroupCloses rest

/-- Attempt of
`re.search(rf"module\s+{top}(?:\s*#\(.*?\))?\s*\((.*?)\);", ..., re.DOTALL)`
at one start position (the optional group is tried first, as the regex engine
does). -/
def tryPortsAt (top : List Char) (l : List Char) : Option (List Char) :=
  (dropPre "module".data l).bind (fun r1 =>
    (wsPlusAttempts r1).findSome? (fun r2 =>
      (dropPre top r2).bind (fun r3 =>
        ((dropPre "#(".data (r3.dropWhile isPySpace)).bind scanGroupCloses).orElse
          (fun _ => afterParen r3))))

/-- `re.search`: leftmost start position whose attempt succeeds. -/
def searchPos (attempt : List Char → Option (List Char)) : List Char → Option (List Char)
  | [] => attempt []
  | c :: cs => (attempt (c :: cs)).orElse (fun _ => searchPos attempt cs)

/-- `fv_env_build.extract_module_blocks`: the raw parameter and port blocks of
`module <top>` in `content` (empty when unmatched), stripped. -/
def extract_module_blocks (content top : String) : String × String :=
  let p := searchPos (tryParamsAt top.data) content.data
  let q := searchPos (tryPortsAt top.data) content.data
  ((⟨stripL (p.getD [])⟩ : String), (⟨stripL (q.getD [])⟩ : String))

/-- `re.match(r"^(input|output|inout|logic|wire|reg)", stripped)`: a bare
prefix test (no word boundary). -/
def dirKeyword6 (s : List Char) : Bool :=
  ["input", "output", "inout", "logic", "wire", "reg"].any (fun k => k.data.isPrefixOf s)

/-- Loop state of `generate_interfaces_from_top`'s scanner: the insertion-ordered
dictionary of stored groups plus the open group name/block. -/
structure CState where
  acc : List (String × List String)
  name : String
  block : List String
  inside : Bool

/-- Python-dict store: update in place if the key exists, else append. -/
def dictSet (k : String) (v : List String) : List (String × List String) → List (String × List String)
  | [] => [(k, v)]
  | (k', v') :: rest => if k' = k then (k, v) :: rest else (k', v') :: dictSet k v rest

/-- One loop iteration of `generate_interfaces_from_top`'s scanner.  A group is
stored only when `interface_name and current_block` are both truthy, i.e. a
group that collected no signal lines is never stored. -/
def collectStep (st : CState) (line : String) : CState :=
  let stripped := stripL line.data
  if isIfaceComment stripped then
    let acc' := if st.inside && st.name ≠ "" && st.block ≠ [] then dictSet st.name st.block st.acc else st.acc
    match ifaceName stripped with
    | some nm => { acc := acc', name := nm, block := [], inside := true }
    | none => { st with acc := acc' }
  else if st.inside then
    if "//".data.isPrefixOf stripped || stripped = [] || stripped = ");".data then
      let acc' := if st.name ≠ "" && st.block ≠ [] then dictSet st.name st.block st.acc else st.acc
      { acc := acc', name := "", block := [], inside := false }
    else if dirKeyword6 stripped then
      { st with block := st.block ++ [(⟨stripped⟩ : String)] }
    else st
  else st

/-- The interface dictionary built by `fv_env_build.generate_interfaces_from_top`
from the lines of the top file (name → collected stripped signal lines). -/
def interfacesFromTop (lines : List String) : List (String × List String) :=
  let st := lines.foldl collectStep ⟨[], "", [], false⟩
  if st.inside && st.name ≠ "" && st.block ≠ [] then dictSet st.name st.block st.acc else st.acc

/-- `re.sub(r"^(input|output|inout)\s+", "", code)`: drop a leading direction
keyword together with the following whitespace run, when present. -/
def dirSubGo : List String → List Char → List Char
  | [], code => code
  | k :: ks, code =>
    if k.data.isPrefixOf code && !((code.drop k.length).takeWhile isPySpace).isEmpty then
      (code.drop k.length).dropWhile isPySpace
    else dirSubGo ks code

def dirSub3 (code : List Char) : List Char := dirSubGo ["input", "output", "inout"] code

/-- One signal line of a generated wrapper file: the cleaned declaration line
and the macro name contribution (the last whitespace token). -/
def wrapperSignalLine (s : String) : String × Option String :=
  let code := dirSub3 (rstripSetL [',', ';'] (stripL (takeBeforeL "//".data s.data)))
  let tokens := splitWsL code
  ((⟨"    ".data ++ code ++ ";\n".data⟩ : String),
   (tokens.getLast?).map (fun t => (⟨t⟩ : String)))

/-- The text of the wrapper file `<name>_port_intf.sv` written by
`generate_interfaces_from_top` for one stored group. -/
def wrapperText (name : String) (signals : List String) : String :=
  let pairs := signals.map wrapperSignalLine
  let cleanLines := pairs.map Prod.fst
  let sigNames := pairs.filterMap Prod.snd
  "interface " ++ name ++ "_port_intf;\n" ++ concatStrs cleanLines
    ++ "    `define " ++ name ++ "_port_intf_fields \\\n        "
    ++ String.intercalate ", " sigNames ++ "\n"
    ++ "    modport driver  (output `" ++ name ++ "_port_intf_fields);\n"
    ++ "    modport monitor (input `" ++ name ++ "_port_intf_fields);\n"
    ++ "endinterface\n"

/-- `re.match(r"^(input|output|inout)\s*,?\s*//", line)`. -/
def dirCommentPrefix (s : List Char) : Bool :=
  ["input", "output", "inout"].any (fun k =>
    if k.data.isPrefixOf s then
      let r1 := (s.drop k.length).dropWhile isPySpace
      let r2 := match r1 with
                | ',' :: t => t.dropWhile isPySpace
                | _ => r1
      "//".data.isPrefixOf r2
    else false)

/-- `re.match(r"^\s*input\s*,?\s*//", line)`. -/
def inputCommentPrefix (s : List Char) : Bool :=
  let r0 := s.dropWhile isPySpace
  if "input".data.isPrefixOf r0 then
    let r1 := (r0.drop 5).dropWhile isPySpace
    let r2 := match r1 with
              | ',' :: t => t.dropWhile isPySpace
              | _ => r1
    "//".data.isPrefixOf r2
  else false

/-- Pass 1 of `setup_formal_env`'s port rewriting: force each port line to
`input`, preserving comments; empty lines are dropped. -/
def cleanPortLine (line : List Char) : Option String :=
  let l := stripL line
  if l = [] then none
  else if "//".data.isPrefixOf l || dirCommentPrefix l then
    some (⟨"  ".data ++ l ++ ['\n']⟩ : String)
  else
    let code0 := rstripSetL [',', ';'] (stripL (takeBeforeL "//".data l))
    let comment :=
      if containsSubL "//".data l then
        "//".data ++ stripL (((splitAllL "//".data l).drop 1).headD [])
      else []
    let code2 := stripL ("input ".data ++ dirSub3 code0)
    if "//".data.isPrefixOf code2 || code2 = [] then
      some (⟨rstripL ("  ".data ++ code2 ++ ' ' :: comment) ++ ['\n']⟩ : String)
    else
      some (⟨rstripL ("  ".data ++ code2 ++ ',' :: ' ' :: comment) ++ ['\n']⟩ : String)

/-- The pass-2 skip test (comment-only / blank / `input ,? //` lines). -/
def isSkippable (l : List Char) : Bool :=
  l.isEmpty || "//".data.isPrefixOf l || inputCommentPrefix l

/-- Index of the last real signal line among the cleaned port lines. -/
def lastSignalIdx (ls : List String) : Option Nat :=
  (List.range ls.length).reverse.find?
    (fun i => !isSkippable (stripL ((ls.get? i).getD "").data))

/-- Pass 2 of `setup_formal_env`'s port rewriting: re-indent, keep a trailing
comma on every signal line except the last. -/
def rebuildPortLine (isLast : Bool) (orig : List Char) : String :=
  if orig = [] then "\n"
  else if "//".data.isPrefixOf orig || inputCommentPrefix orig then
    (⟨"    ".data ++ orig ++ ['\n']⟩ : String)
  else
    let (code, comment) :=
      if containsSubL "//".data orig then
        match splitOnceL "//".data orig with
        | some (c, com) => (rstripSetL [','] (rstripL c), "//".data ++ stripL com)
        | none => (rstripSetL [','] (rstripL orig), ([] : List Char))
      else (rstripSetL [','] (rstripL orig), ([] : List Char))
    let code' := if isLast then code else code ++ [',']
    let out := "    ".data ++ code'
    let out := if comment ≠ [] then out ++ ' ' :: comment else out
    (⟨out ++ ['\n']⟩ : String)

/-- Both port-rewriting passes of `setup_formal_env` applied to the raw port
block text. -/
def cleanPorts (ports : String) : List String :=
  let cp := (splitlinesL ports.data).filterMap cleanPortLine
  let lastIdx := lastSignalIdx cp
  cp.mapIdx (fun i s => rebuildPortLine (some i = lastIdx) (stripL s.data))

/-- The `fv_env.sv` content list built by `setup_formal_env` (each element as
written by `writelines`); `stems` are the sorted wrapper file stems. -/
def fvEnvContent (parameters ports clk disableReset : String) (stems : List String) : List String :=
  ["module fv_env\n", "  #(\n",
   (if parameters ≠ "" then "    " ++ parameters ++ "\n" else ""),
   "  )\n", "  (\n"]
  ++ cleanPorts ports
  ++ ["  );\n\n",
      "  default\n    clocking @(posedge " ++ clk ++ ");\n  endclocking\n\n",
      "  default disable iff (" ++ disableReset ++ ");\n\n"]
  ++ stems.map (fun st =>
       "  " ++ st ++ " " ++ (⟨replaceAllL "_intf".data [] st.data⟩ : String) ++ "();\n")
  ++ ["\n", "  fv_adapter fv_adapter(.*);\n", "endmodule\n"]

/-- Block-collection state of `generate_fv_adapter`. -/
structure ABlocks where
  params : List String
  ports : List String
  insideP : Bool
  insideQ : Bool

/-- One loop iteration of `generate_fv_adapter`'s block collection over the
`fv_env.sv` lines. -/
def adapterBlockStep (st : ABlocks) (line : String) : ABlocks :=
  let ip := st.insideP || containsSubL "#(".data line.data
  if ip then
    let ip' := !(line.data.contains ')' && !([','].isSuffixOf (stripL line.data)))
    { st with params := st.params ++ [line], insideP := ip' }
  else
    let iq := st.insideQ || (line.data.contains '(' && st.ports.isEmpty)
    if iq then
      let iq' := !(containsSubL ");".data line.data)
      { st with ports := st.ports ++ [line], insideQ := iq' }
    else st

/-- Lazy capture up to the next newline (`(.*?)\n`). -/
def capToNewline : List Char → Option (List Char)
  | [] => none
  | c :: cs => if c = '\n' then some [] else (capToNewline cs).map (fun l => c :: l)

/-- Attempt of `re.search(rf"`define {m}\s+\\\n\s+(.*?)\n", content, re.DOTALL)`
at one position (`lit` is the literal `` `define <m> `` part). -/
def tryMacroAt (lit : List Char) (l : List Char) : Option (List Char) :=
  (dropPre lit l).bind (fun r1 =>
    (wsPlusAttempts r1).findSome? (fun r2 =>
      (dropPre ['\\', '\n'] r2).bind (fun r3 =>
        (wsPlusAttempts r3).findSome? capToNewline)))

/-- The signal names `generate_fv_adapter` reads back from one wrapper file:
the macro capture split on `,`, trimmed, empties dropped. -/
def adapterMacroSignals (stem : String) (content : String) : Option (List String) :=
  (searchPos (tryMacroAt ("`define ".data ++ stem.data ++ "_fields".data)) content.data).map
    (fun raw => ((splitAllL [','] raw).map stripL).filter (fun s => !s.isEmpty)
      |>.map (fun s => (⟨s⟩ : String)))

/-- The interface port declarations and assign lines `generate_fv_adapter`
derives from the (sorted) wrapper files. -/
def adapterEntries (wrappers : List (String × String)) : List String × List String :=
  wrappers.foldl
    (fun acc w =>
      match adapterMacroSignals w.1 w.2 with
      | none => acc
      | some sigs =>
        let inst : String := (⟨replaceAllL "_intf".data [] w.1.data⟩ : String)
        (acc.1 ++ ["    " ++ w.1 ++ ".driver " ++ inst],
         acc.2 ++ sigs.map (fun sg => "  assign " ++ inst ++ "." ++ sg ++ " = " ++ sg ++ ";\n")))
    ([], [])

/-- The port-block surgery of `generate_fv_adapter`: ensure a comma on the last
original port line, splice in the interface ports, re-indent, close with `);`. -/
def fixPortBlock (decls : List String) (pb : List String) : List String :=
  if pb ≠ [] && stripL ((pb.getLast?).getD "").data = ");".data then
    let pb1 :=
      if pb.length ≥ 2 then
        let idx := pb.length - 2
        let l := rstripL (((pb.get? idx).getD "").data)
        let fixed : String :=
          if containsSubL "//".data l then
            match splitOnceL "//".data l with
            | some (c, com) =>
              let c' := rstripL c
              let c'' := if [','].isSuffixOf c' then c' else c' ++ [',']
              (⟨c'' ++ ' ' :: '/' :: '/' :: stripL com ++ ['\n']⟩ : String)
            | none => (⟨l ++ ['\n']⟩ : String)
          else
            let l' := if [','].isSuffixOf l then l else l ++ [',']
            (⟨l' ++ ['\n']⟩ : String)
        pb.set idx fixed
      else pb
    let pb2 := pb1.dropLast
    let pb3 := pb2 ++ (decls.enum.map (fun di =>
      "  " ++ di.2 ++ (if di.1 + 1 < decls.length then "," else "") ++ "\n"))
    let pb4 := pb3.map (fun s => "  " ++ (⟨s.data.dropWhile isPySpace⟩ : String))
    pb4 ++ ["  );\n"]
  else pb

/-- `fv_env_build.generate_fv_adapter`: build `fv_adapter.sv` from the written
`fv_env.sv` text and the wrapper files (sorted by file name). -/
def generate_fv_adapter (fvEnvText : String) (wrappers : List (String × String)) : String :=
  let lines := (splitKeepEndsL fvEnvText.data).map (fun l => (⟨l⟩ : String))
  let st := lines.foldl adapterBlockStep ⟨[], [], false, false⟩
  let (decls, assigns) := adapterEntries wrappers
  let pb := fixPortBlock decls st.ports
  "module fv_adapter\n" ++ concatStrs st.params ++ concatStrs pb ++ "\n"
    ++ concatStrs assigns ++ "endmodule\n"

/-- Code-point lexicographic order on character lists (Python string `<`). -/
def lexLt : List Char → List Char → Bool
  | [], [] => false
  | [], _ :: _ => true
  | _ :: _, [] => false
  | a :: as, b :: bs => if a.val < b.val then true else if b.val < a.val then false else lexLt as bs

/-- Sort wrappers by their file name `<stem>.sv` (the `sorted(glob(...))` order). -/
def insertWrapper (x : String × String) : List (String × String) → List (String × String)
  | [] => [x]
  | y :: ys =>
    if lexLt (y.1.data ++ ".sv".data) (x.1.data ++ ".sv".data) then y :: insertWrapper x ys
    else x :: y :: ys

def sortWrappers (ws : List (String × String)) : List (String × String) :=
  ws.foldl (fun acc w => insertWrapper w acc) []

/-- The five texts produced by one run of the generation pipeline. -/
structure ArtifactSet where
  wrappers : List (String × String)
  fvPkg : String
  fvEnv : String
  fvAdapter : String
  fvBind : String
deriving DecidableEq, Repr

/-- `fv_env_build.setup_formal_env`, restricted to its artifact-text core: from
the top file's text and the caller arguments, produce the five generated texts.
`fv_pkg.sv` is only touched (`(verif_path / "fv_pkg.sv").touch()`), so its
content is the empty string. -/
def setupArtifacts (content top : String) (clocks : List String) (rst : String)
    (activeLow : Bool) : ArtifactSet :=
  let pq := extract_module_blocks content top
  let groups := interfacesFromTop (pySplitlines content)
  let wrappers := sortWrappers (groups.map (fun g => (g.1 ++ "_port_intf", wrapperText g.1 g.2)))
  let stems := wrappers.map Prod.fst
  let clk := clocks.headD "clk"
  let dis := if activeLow then "!" ++ rst else rst
  let env := concatStrs (fvEnvContent pq.1 pq.2 clk dis stems)
  { wrappers := wrappers
    fvPkg := ""
    fvEnv := env
    fvAdapter := generate_fv_adapter env wrappers
    fvBind := "bind " ++ top ++ " fv_env fv_env(.*);\n" }

/-!  ### Concrete sample inputs used by the claim theorems  -/

/-- A top module with a non-empty parameter list and no interface annotations. -/
def c1Top : String :=
  "module top #(\n  parameter WIDTH = 8,\n  parameter DEPTH = 16\n) (\n  input clk,\n  input [WIDTH-1:0] d\n  );\nendmodule\n"

/-- A top module with ports but zero interface annotations. -/
def c2Top : String :=
  "module top (\n  input a,\n  input b\n  );\nendmodule\n"

/-- The C3 port block: annotation followed by three signal lines and the `);`
sentinel, with no blank or comment line in between. -/
def c3Lines : List String :=
  ["input clk,", "input reset,", "// ex_reg INTERFACE",
   "input pb_irq_i,", "input [3:0] pb_byte_cnt_i,", "input pp_irq_i", ");"]

/-- A VHDL declaration whose port block uses an identifier list (`a, b : ...`),
a legal VHDL form on which the round-trip of C6 loses the name text. -/
def c6Bad : String :=
  "port (\n  a, b : in std_logic;\n  c : in std_logic\n);\n"

/-- Ordered port names obtained by classifying the original VHDL port block
directly (names of the signal-carrying entries). -/
def directPortNames (content : String) : List String :=
  (classify_vhdl_port_lines (read_vhdl_port content)).filterMap (fun e =>
    match e.ptype with
    | .line => if e.name = "" then none else some e.name
    | .lastLine => if e.name = "" then none else some e.name
    | _ => none)

/-- Ordered port names obtained by translating the VHDL declaration, extracting
the port block with the Signature Extractor, and running the Signal Parser on
each line of the extracted block. -/
def roundtripPortNames (content top : String) : List String :=
  (pySplitlines (extract_module_blocks (generate_sv_module content top) top).2).filterMap
    (fun l => (parse_sv_signal_info l).1)

/-- The claim C8 per-line builder, modelled from the claim's words: the
`parameter` *keyword* (the word followed by whitespace or end of text) is
stripped; the line is then split once on the first `=`. -/
def paramLineClaimC8 (line : String) : Option (String × String) :=
  let l1 := rstripSetL [','] (stripL (takeBeforeL "//".data line.data))
  let kw := "parameter".data.isPrefixOf l1 &&
    (match (l1.drop 9).head? with
     | none => true
     | some c => isPySpace c)
  let l2 := if kw then stripL (l1.drop 9) else l1
  if l2.contains '=' then
    match splitOnceL ['='] l2 with
    | some (n, d) => some ((⟨stripL n⟩ : String), (⟨stripL d⟩ : String))
    | none => none
  else none

/-- The amended C8 per-line builder: a leading `parameter` *prefix* is stripped
(`str.startswith` semantics), even when it is part of a longer identifier. -/
def paramLineAmended (line : String) : Option (String × String) :=
  let l1 := rstripSetL [','] (stripL (takeBeforeL "//".data line.data))
  let l2 := if "parameter".data.isPrefixOf l1 then stripL (l1.drop 9) else l1
  if l2.contains '=' then
    match splitOnceL ['='] l2 with
    | some (n, d) => some ((⟨stripL n⟩ : String), (⟨stripL d⟩ : String))
    | none => none
  else none

/-- Characters allowed in a plain signal/module identifier. -/
def goodIdentChar (c : Char) : Bool := c.isAlphanum || c = '_'

/-- Characters allowed in a bracketed range token such as `[WIDTH-1:0]`. -/
def goodRangeChar (c : Char) : Bool :=
  c.isAlphanum || c = '[' || c = ']' || c = ':' || c = '_' || c = '-' || c = '+'

/-- A plain identifier: nonempty, identifier characters only, and not one of the
direction/type keywords the Signal Parser filters out. -/
def goodIdent (n : String) : Prop :=
  n.data ≠ [] ∧ n.data.all goodIdentChar = true ∧ svKeywords.contains n.data = false

/-- A plain bracketed range token: nonempty, starts with `[`, range characters only. -/
def goodRange (r : String) : Prop :=
  r.data ≠ [] ∧ "[".data.isPrefixOf r.data = true ∧ r.data.all goodRangeChar = true

instance : DecidablePred goodIdent := fun n => by unfold goodIdent; infer_instance

instance : DecidablePred goodRange := fun r => by unfold goodRange; infer_instance

/-- A nonempty run of whitespace characters, as separates the tokens of a
declaration line. -/
def wsRun (s : List Char) : Prop := s ≠ [] ∧ ∀ c ∈ s, isPySpace c = true

instance : DecidablePred wsRun := fun s => by unfold wsRun; infer_instance

/-- Tokens each preceded by its separating whitespace run, concatenated: the
text of a declaration after its leading keyword. -/
def joinSeps : List (List Char × List Char) → List Char
  | [] => []
  | (s, w) :: rest => s ++ (w ++ joinSeps rest)

/-- A separator/token pair carrying one of the optional `logic`/`wire`/`reg`
keywords of a declaration line. -/
def kwPairOK (p : List Char × List Char) : Prop :=
  wsRun p.1 ∧ (p.2 = "logic".data ∨ p.2 = "wire".data ∨ p.2 = "reg".data)

instance : DecidablePred kwPairOK := fun p => by unfold kwPairOK; infer_instance

/-- The Python `extract_range` call terminates normally on this line: the line
is skipped as a comment, or no parenthesized group is captured, or the captured
group splits on `downto` into exactly two parts.  Otherwise the tuple unpacking
`left, right = ...` in `vhdl_to_sv.py` raises `ValueError`, the crash path that
`extract_range` models as `""`. -/
def rangeCrashFree (line : String) : Bool :=
  "--".data.isPrefixOf (stripL line.data) ||
    (match (findAfterSub ['('] line.data).bind capToParen with
     | none => true
     | some inside =>
       !(containsSubL "downto".data inside) ||
         (splitAllL "downto".data inside).length == 2)

/-- Words joined by single spaces. -/
def joinSp : List (List Char) → List Char
  | [] => []
  | [w] => w
  | w :: ws => w ++ ' ' :: joinSp ws

/-- The common preprocessing of one parameter line (comment strip, trim,
trailing-comma strip, `parameter` prefix strip). -/
def paramCore (l : String) : List Char :=
  let l1 := rstripSetL [','] (stripL (takeBeforeL "//".data l.data))
  if "parameter".data.isPrefixOf l1 then stripL (l1.drop 9) else l1

/-!  ## Helper lemmas  -/

/-- The Signal Parser's name component, taken on a raw line of text. -/
def parseNameL (l : List Char) : Option String := (parse_sv_signal_info (⟨l⟩ : String)).1

/-- The ordered Signal Parser names of the lines of a text. -/
def namesOfL (l : List Char) : List String := (splitlinesL l).filterMap parseNameL

/-- A classified port entry on which the translated text parses back exactly:
signal entries carry a clean identifier and either no range or a clean
bracketed range; comment entries contain no `)` and no newline. -/
def portEntryOK (e : PEntry) : Prop :=
  ((e.ptype = PType.line ∨ e.ptype = PType.lastLine) →
      goodIdent e.name ∧ (e.range = "" ∨ goodRange e.range)) ∧
  (e.ptype = PType.comment → ')' ∉ e.value.data ∧ '\n' ∉ e.value.data)

instance : DecidablePred portEntryOK := fun e => by
  unfold portEntryOK
  infer_instance

/-- A VHDL declaration with one-name-per-line ports, on which the C6 round-trip
is exact. -/
def c6Good : String :=
  "port (\n  clk : in std_logic;\n  data_i : in std_logic_vector(3 downto 0)\n);\n"

theorem isPrefixOf_self_append (p t : List Char) : p.isPrefixOf (p ++ t) = true := by
  induction p with
  | nil => simp [List.isPrefixOf]
  | cons c cs ih => simp [List.isPrefixOf, ih]

theorem takeBefore_no_slash (l : List Char) (h : ∀ c ∈ l, c ≠ '/') :
    takeBeforeL "//".data l = l := by
  induction l with
  | nil => rfl
  | cons c cs ih =>
    have hc : c ≠ '/' := h c (by simp)
    have hpre : "//".data.isPrefixOf (c :: cs) = false := by
      show List.isPrefixOf ['/', '/'] (c :: cs) = false
      simp [List.isPrefixOf]
      intro hc'
      exact absurd hc'.symm hc
    simp [takeBeforeL, hpre, ih (fun x hx => h x (by simp [hx]))]

theorem lstripL_eq_self (l : List Char) (h : ∀ c ∈ l.head?, isPySpace c = false) :
    lstripL l = l := by
  cases l with
  | nil => rfl
  | cons c cs => simp [lstripL, List.dropWhile_cons, h c rfl]

theorem rstripL_eq_self (l : List Char) (h : ∀ c ∈ l.getLast?, isPySpace c = false) :
    rstripL l = l := by
  unfold rstripL
  cases hr : l.reverse with
  | nil => simp [List.reverse_eq_nil_iff.mp hr]
  | cons c cs =>
    have hc : isPySpace c = false := by
      apply h
      rw [← List.head?_reverse, hr]
      rfl
    rw [List.dropWhile_cons, hc]
    simp [← hr]

theorem stripL_eq_self (l : List Char)
    (h1 : ∀ c ∈ l.head?, isPySpace c = false)
    (h2 : ∀ c ∈ l.getLast?, isPySpace c = false) :
    stripL l = l := by
  unfold stripL
  rw [lstripL_eq_self l h1, rstripL_eq_self l h2]

theorem rstripSetL_eq_self (set l : List Char) (h : ∀ c ∈ l.getLast?, set.contains c = false) :
    rstripSetL set l = l := by
  unfold rstripSetL
  cases hr : l.reverse with
  | nil => simp [List.reverse_eq_nil_iff.mp hr]
  | cons c cs =>
    have hc : set.contains c = false := by
      apply h
      rw [← List.head?_reverse, hr]
      rfl
    rw [List.dropWhile_cons]
    simp only [hc]
    simp [← hr]

theorem splitWsGo_word (w l acc : List Char) (hw : ∀ c ∈ w, isPySpace c = false) :
    splitWsGo (w ++ l) acc = splitWsGo l (w.reverse ++ acc) := by
  induction w generalizing acc with
  | nil => simp
  | cons c cs ih =>
    rw [List.cons_append, splitWsGo]
    rw [hw c (by simp)]
    simpa using ih (c :: acc) (fun x hx => hw x (by simp [hx]))

theorem splitWsGo_space (c : Char) (l acc : List Char) (hc : isPySpace c = true) (ha : acc ≠ []) :
    splitWsGo (c :: l) acc = acc.reverse :: splitWsGo l [] := by
  cases acc with
  | nil => exact absurd rfl ha
  | cons a as => rw [splitWsGo, hc]; rfl

theorem goodIdentChar_not_ws (c : Char) (h : goodIdentChar c = true) : isPySpace c = false := by
  cases hc : isPySpace c with
  | false => rfl
  | true =>
    have hd : ((((c = ' ' ∨ c = '\t') ∨ c = '\n') ∨ c = '\x0d') ∨ c = '\x0b') ∨ c = '\x0c' := by
      simpa [isPySpace, Bool.or_eq_true, decide_eq_true_eq] using hc
    rcases hd with ((((rfl | rfl) | rfl) | rfl) | rfl) | rfl <;> exact absurd h (by decide)

theorem goodRangeChar_not_ws (c : Char) (h : goodRangeChar c = true) : isPySpace c = false := by
  cases hc : isPySpace c with
  | false => rfl
  | true =>
    have hd : ((((c = ' ' ∨ c = '\t') ∨ c = '\n') ∨ c = '\x0d') ∨ c = '\x0b') ∨ c = '\x0c' := by
      simpa [isPySpace, Bool.or_eq_true, decide_eq_true_eq] using hc
    rcases hd with ((((rfl | rfl) | rfl) | rfl) | rfl) | rfl <;> exact absurd h (by decide)

theorem goodChar_ne {p : Char → Bool} (c x : Char) (h : p c = true) (hx : p x = false) :
    c ≠ x := by
  intro he
  rw [he, hx] at h
  exact Bool.false_ne_true h

theorem concatStrs_append (l1 l2 : List String) :
    (concatStrs (l1 ++ l2)).data = (concatStrs l1).data ++ (concatStrs l2).data := by
  simp [concatStrs]

theorem containsSub_append_right (p x y : List Char) (h : containsSubL p y = true) :
    containsSubL p (x ++ y) = true := by
  induction x with
  | nil => simpa using h
  | cons c cs ih =>
    simp only [List.cons_append, containsSubL, Bool.or_eq_true]
    exact Or.inr ih

/-!  ## Claim theorems  -/

/-- Claim C1, counterexample: for a module signature with a non-empty parameter
list, the generated parameter package artifact (`fv_pkg.sv`) is empty and in
particular contains no macro named `param_fields`. -/
theorem c1_counterexample :
    parse_sv_parameters_info (pySplitlines (extract_module_blocks c1Top "top").1) ≠ [] ∧
    (setupArtifacts c1Top "top" ["clk"] "rst" false).fvPkg = "" ∧
    containsSubL "param_fields".data (setupArtifacts c1Top "top" ["clk"] "rst" false).fvPkg.data
      = false := by
  refine ⟨by decide, rfl, rfl⟩

/-- Claim C1, amended: for every run of the generator, the parameter package
artifact is the empty text (the file is only touched); no `param_fields` macro
is ever emitted. -/
theorem c1_fv_pkg_always_empty (content top : String) (clocks : List String)
    (rst : String) (lo : Bool) :
    (setupArtifacts content top clocks rst lo).fvPkg = "" := rfl

/-- Claim C2, counterexample: on a run with zero interface groups the generated
environment text still contains the adapter instantiation, so "adapter
instantiated iff at least one interface group exists" is false. -/
theorem c2_counterexample :
    ¬ (containsSubL "fv_adapter fv_adapter(.*);".data
         (setupArtifacts c2Top "top" ["clk"] "rst" false).fvEnv.data = true ↔
       interfacesFromTop (pySplitlines c2Top) ≠ []) := by
  decide

/-- Claim C2, amended: the environment module content always contains the
adapter instantiation line, regardless of how many interface groups exist. -/
theorem c2_adapter_always_instantiated (parameters ports clk dis : String)
    (stems : List String) :
    containsSubL "fv_adapter fv_adapter(.*);".data
      (concatStrs (fvEnvContent parameters ports clk dis stems)).data = true := by
  have hsplit : fvEnvContent parameters ports clk dis stems =
      (["module fv_env\n", "  #(\n",
        (if parameters ≠ "" then "    " ++ parameters ++ "\n" else ""),
        "  )\n", "  (\n"]
       ++ cleanPorts ports
       ++ ["  );\n\n",
           "  default\n    clocking @(posedge " ++ clk ++ ");\n  endclocking\n\n",
           "  default disable iff (" ++ dis ++ ");\n\n"]
       ++ stems.map (fun st =>
            "  " ++ st ++ " " ++ (⟨replaceAllL "_intf".data [] st.data⟩ : String) ++ "();\n"))
      ++ ["\n", "  fv_adapter fv_adapter(.*);\n", "endmodule\n"] := by
    simp [fvEnvContent]
  rw [hsplit, concatStrs_append]
  exact containsSub_append_right _ _ _ (by decide)

/-- Claim C3, counterexample: on the given port block the one group `ex_reg`
does not consist of the two claimed pairs only. -/
theorem c3_counterexample :
    parse_sv_interface_info c3Lines ≠
      [⟨"ex_reg", [(some "pb_irq_i", some ""), (some "pb_byte_cnt_i", some "[3:0]")]⟩] := by
  decide

/-- Claim C3, amended: with no blank or comment line between the annotation and
the `);` sentinel, the segmenter returns one group `ex_reg` whose content also
includes `pp_irq_i` — no terminator intervenes before it. -/
theorem c3_group_contents :
    parse_sv_interface_info c3Lines =
      [⟨"ex_reg", [(some "pb_irq_i", some ""), (some "pb_byte_cnt_i", some "[3:0]"),
                   (some "pp_irq_i", some "")]⟩] := by
  decide

/-- Claim C7: the artifact generator is deterministic — two runs on equal
inputs produce equal artifact sets (all five texts byte-identical). -/
theorem c7_generator_deterministic (c c' t t' : String) (ks ks' : List String)
    (r r' : String) (lo lo' : Bool)
    (h1 : c = c') (h2 : t = t') (h3 : ks = ks') (h4 : r = r') (h5 : lo = lo') :
    setupArtifacts c t ks r lo = setupArtifacts c' t' ks' r' lo' := by
  subst h1; subst h2; subst h3; subst h4; subst h5; rfl

/-- Witness for C7 at a concrete input. -/
theorem c7_witness :
    setupArtifacts "module m (\n  input x\n  );\n" "m" ["ck"] "rs" true =
      setupArtifacts "module m (\n  input x\n  );\n" "m" ["ck"] "rs" true :=
  c7_generator_deterministic _ _ _ _ _ _ _ _ _ _ rfl rfl rfl rfl rfl

/-- Claim C9: the generic block `WIDTH : integer := 8;` then
`DEPTH : integer := 16` translates to `parameter WIDTH = 8,` followed by
`parameter DEPTH = 16`, with no trailing comma on the last. -/
theorem c9_generic_translation :
    format_sv_parameters
        (classify_vhdl_generic_lines ["WIDTH : integer := 8;", "DEPTH : integer := 16"]) =
      "  parameter WIDTH = 8,\n  parameter DEPTH = 16" := by
  decide

/-- Claim C4, counterexample: an annotation immediately followed by the `);`
terminator with no signal line in between yields a group that the
wrapper-generation segmenter of `fv_env_build.generate_interfaces_from_top`
does NOT append to its result — the label `apb` is absent, so a named group
that collected zero signals is dropped there. -/
theorem c4_counterexample :
    ¬ ("apb" ∈ (interfacesFromTop ["// apb INTERFACE", ");"]).map Prod.fst) := by
  decide

/-- Claim C4, amended: the two segmenter implementations disagree on empty
groups.  For any annotation line recognized with name `nm` followed directly by
a terminator (a non-annotation comment, a blank line, the `);` sentinel, or a
second annotation), `parse_sv.parse_sv_interface_info` appends the empty group
`⟨nm, []⟩`, while `generate_interfaces_from_top` stores nothing (its store
requires a non-empty collected block), so no wrapper is generated. -/
theorem c4_empty_group_kept_vs_dropped (ann ann2 t : String) (nm nm2 : String)
    (haC : isIfaceComment (stripL ann.data) = true)
    (haN : ifaceName (stripL ann.data) = some nm)
    (ha2C : isIfaceComment (stripL ann2.data) = true)
    (ha2N : ifaceName (stripL ann2.data) = some nm2)
    (htA : isIfaceComment (stripL t.data) = false)
    (htT : ("//".data.isPrefixOf (stripL t.data) || stripL t.data = []
            || stripL t.data = ");".data) = true) :
    (parse_sv_interface_info [ann, t] = [⟨nm, []⟩] ∧ interfacesFromTop [ann, t] = []) ∧
    (parse_sv_interface_info [ann, ann2] = [⟨nm, []⟩, ⟨nm2, []⟩] ∧
     interfacesFromTop [ann, ann2] = []) := by
  have e1 : parseIfStep ⟨[], none, false⟩ ann = ⟨[], some (⟨nm, []⟩, 0), true⟩ := by
    simp [parseIfStep, haC, haN]
  have e2 : parseIfStep ⟨[], some (⟨nm, []⟩, 0), true⟩ t = ⟨[⟨nm, []⟩], none, false⟩ := by
    simp [parseIfStep, haC, haN, htA, htT]
  have e3 : parseIfStep ⟨[], some (⟨nm, []⟩, 0), true⟩ ann2 =
      ⟨[⟨nm, []⟩], some (⟨nm2, []⟩, 0), true⟩ := by
    simp [parseIfStep, ha2C, ha2N]
  have f1 : collectStep ⟨[], "", [], false⟩ ann = ⟨[], nm, [], true⟩ := by
    simp [collectStep, haC, haN]
  have f2 : collectStep ⟨[], nm, [], true⟩ t = ⟨[], "", [], false⟩ := by
    simp [collectStep, htA, htT]
  have f3 : collectStep ⟨[], nm, [], true⟩ ann2 = ⟨[], nm2, [], true⟩ := by
    simp [collectStep, ha2C, ha2N]
  refine ⟨⟨?_, ?_⟩, ?_, ?_⟩
  · simp [parse_sv_interface_info, e1, e2]
  · simp [interfacesFromTop, f1, f2]
  · simp [parse_sv_interface_info, e1, e3]
  · simp [interfacesFromTop, f1, f3]

/-- Witness for C4 at concrete inputs. -/
theorem c4_witness :
    ifaceName (stripL ("// apb INTERFACE" : String).data) = some "apb" ∧
    ifaceName (stripL ("// mem bus INTERFACE" : String).data) = some "mem_bus" ∧
    ((parse_sv_interface_info ["// apb INTERFACE", ");"] = [⟨"apb", []⟩] ∧
      interfacesFromTop ["// apb INTERFACE", ");"] = []) ∧
     (parse_sv_interface_info ["// apb INTERFACE", "// mem bus INTERFACE"] =
        [⟨"apb", []⟩, ⟨"mem_bus", []⟩] ∧
      interfacesFromTop ["// apb INTERFACE", "// mem bus INTERFACE"] = [])) :=
  ⟨by decide, by decide,
   c4_empty_group_kept_vs_dropped "// apb INTERFACE" "// mem bus INTERFACE" ");"
     "apb" "mem_bus" (by decide) (by decide) (by decide) (by decide) (by decide) (by decide)⟩

/-- Claim C10, counterexample: with two `a`-named annotation blocks where the
second collected zero signals, the stored signal list is that of the FIRST
block, not the last — a later empty block does not overwrite. -/
theorem c10_counterexample :
    interfacesFromTop ["// a INTERFACE", "input x,", "", "// a INTERFACE", ");"] ≠
      [("a", [])] ∧
    interfacesFromTop ["// a INTERFACE", "input x,", "", "// a INTERFACE", ");"] =
      [("a", ["input x,"])] := by
  exact ⟨by decide, by decide⟩

/-- Claim C10, amended: groups are accumulated in a mapping keyed by normalized
name with last-wins overwrite among blocks that collected at least one signal
line: when both same-named blocks are non-empty the second's signals replace
the first's; when the second block is empty the first block's signals are
kept. -/
theorem c10_last_wins (ann s1 s2 t1 t2 : String) (nm : String)
    (hnm : nm ≠ "")
    (haC : isIfaceComment (stripL ann.data) = true)
    (haN : ifaceName (stripL ann.data) = some nm)
    (hs1A : isIfaceComment (stripL s1.data) = false)
    (hs1T : ("//".data.isPrefixOf (stripL s1.data) || stripL s1.data = []
             || stripL s1.data = ");".data) = false)
    (hs1K : dirKeyword6 (stripL s1.data) = true)
    (hs2A : isIfaceComment (stripL s2.data) = false)
    (hs2T : ("//".data.isPrefixOf (stripL s2.data) || stripL s2.data = []
             || stripL s2.data = ");".data) = false)
    (hs2K : dirKeyword6 (stripL s2.data) = true)
    (ht1A : isIfaceComment (stripL t1.data) = false)
    (ht1T : ("//".data.isPrefixOf (stripL t1.data) || stripL t1.data = []
             || stripL t1.data = ");".data) = true)
    (ht2A : isIfaceComment (stripL t2.data) = false)
    (ht2T : ("//".data.isPrefixOf (stripL t2.data) || stripL t2.data = []
             || stripL t2.data = ");".data) = true) :
    interfacesFromTop [ann, s1, t1, ann, s2, t2] = [(nm, [(⟨stripL s2.data⟩ : String)])] ∧
    interfacesFromTop [ann, s1, t1, ann, t2] = [(nm, [(⟨stripL s1.data⟩ : String)])] := by
  have f1 : collectStep ⟨[], "", [], false⟩ ann = ⟨[], nm, [], true⟩ := by
    simp [collectStep, haC, haN]
  have f2 : collectStep ⟨[], nm, [], true⟩ s1 =
      ⟨[], nm, [(⟨stripL s1.data⟩ : String)], true⟩ := by
    simp [collectStep, hs1A, hs1T, hs1K]
  have f3 : collectStep ⟨[], nm, [(⟨stripL s1.data⟩ : String)], true⟩ t1 =
      ⟨[(nm, [(⟨stripL s1.data⟩ : String)])], "", [], false⟩ := by
    simp [collectStep, ht1A, ht1T, hnm, dictSet]
  have f4 : collectStep ⟨[(nm, [(⟨stripL s1.data⟩ : String)])], "", [], false⟩ ann =
      ⟨[(nm, [(⟨stripL s1.data⟩ : String)])], nm, [], true⟩ := by
    simp [collectStep, haC, haN]
  have f5 : collectStep ⟨[(nm, [(⟨stripL s1.data⟩ : String)])], nm, [], true⟩ s2 =
      ⟨[(nm, [(⟨stripL s1.data⟩ : String)])], nm, [(⟨stripL s2.data⟩ : String)], true⟩ := by
    simp [collectStep, hs2A, hs2T, hs2K]
  have f6 : collectStep ⟨[(nm, [(⟨stripL s1.data⟩ : String)])], nm,
      [(⟨stripL s2.data⟩ : String)], true⟩ t2 =
      ⟨[(nm, [(⟨stripL s2.data⟩ : String)])], "", [], false⟩ := by
    simp [collectStep, ht2A, ht2T, hnm, dictSet]
  have f7 : collectStep ⟨[(nm, [(⟨stripL s1.data⟩ : String)])], nm, [], true⟩ t2 =
      ⟨[(nm, [(⟨stripL s1.data⟩ : String)])], "", [], false⟩ := by
    simp [collectStep, ht2A, ht2T]
  constructor
  · simp [interfacesFromTop, f1, f2, f3, f4, f5, f6]
  · simp [interfacesFromTop, f1, f2, f3, f4, f7]

/-- Witness for C10 at concrete inputs. -/
theorem c10_witness :
    ("a" : String) ≠ "" ∧
    ifaceName (stripL ("// a INTERFACE" : String).data) = some "a" ∧
    (interfacesFromTop ["// a INTERFACE", "input x,", "", "// a INTERFACE", "input y,", ");"] =
       [("a", ["input y,"])] ∧
     interfacesFromTop ["// a INTERFACE", "input x,", "", "// a INTERFACE", ");"] =
       [("a", ["input x,"])]) :=
  ⟨by decide, by decide,
   c10_last_wins "// a INTERFACE" "input x," "input y," "" ");" "a"
     (by decide) (by decide) (by decide) (by decide) (by decide) (by decide)
     (by decide) (by decide) (by decide) (by decide) (by decide) (by decide) (by decide)⟩

theorem parse_sv_signal_info_def (line : String) :
    parse_sv_signal_info line =
      (if "input".data.isPrefixOf
          (stripL (rstripSetL [',', ';'] (stripL (takeBeforeL "//".data line.data)))) then
        match (splitWsL (stripL (rstripSetL [',', ';']
            (stripL (takeBeforeL "//".data line.data))))).filter
            (fun t => !(svKeywords.contains t)) with
        | [] => (none, some "")
        | t :: rest =>
          if "[".data.isPrefixOf t then
            ((rest.head?).map (fun x => (⟨x⟩ : String)), some (⟨t⟩ : String))
          else (some (⟨t⟩ : String), some "")
      else (none, none)) := rfl

theorem exists_concat_of_ne_nil {l : List Char} (h : l ≠ []) : ∃ m b, l = m ++ [b] := by
  cases hr : l.reverse with
  | nil => exact absurd (by simpa using congrArg List.reverse hr) h
  | cons b t =>
    refine ⟨t.reverse, b, ?_⟩
    have := congrArg List.reverse hr
    simpa using this

theorem splitWsGo_fin (w acc : List Char) (hw : ∀ c ∈ w, isPySpace c = false)
    (hne : w ≠ []) : splitWsGo w acc = [acc.reverse ++ w] := by
  have h0 : splitWsGo (w ++ []) acc = splitWsGo [] (w.reverse ++ acc) := splitWsGo_word w [] acc hw
  rw [List.append_nil] at h0
  rw [h0, splitWsGo]
  have hemp : (w.reverse ++ acc).isEmpty = false := by
    cases hwr : w.reverse with
    | nil => exact absurd (by simpa using congrArg List.reverse hwr) hne
    | cons b t => rfl
  simp [hemp]

theorem splitWs_join (ws : List (List Char))
    (h : ∀ w ∈ ws, w ≠ [] ∧ ∀ c ∈ w, isPySpace c = false) :
    splitWsL (joinSp ws) = ws := by
  induction ws with
  | nil => rfl
  | cons w rest ih =>
    cases rest with
    | nil =>
      show splitWsGo w [] = [w]
      have hw := h w (by simp)
      simpa using splitWsGo_fin w [] hw.2 hw.1
    | cons w2 rest2 =>
      show splitWsGo (w ++ ' ' :: joinSp (w2 :: rest2)) [] = w :: w2 :: rest2
      have hw := h w (by simp)
      rw [splitWsGo_word _ _ _ hw.2]
      rw [splitWsGo_space _ _ _ (by decide) (by simpa using hw.1)]
      have := ih (fun x hx => h x (by simp [hx]))
      simp only [splitWsL] at this
      simp [this]

theorem core_eq_self (D : List Char)
    (hh : ∀ c ∈ D.head?, isPySpace c = false)
    (hl : ∀ c ∈ D.getLast?, goodIdentChar c = true)
    (hs : ∀ c ∈ D, c ≠ '/') :
    stripL (rstripSetL [',', ';'] (stripL (takeBeforeL "//".data D))) = D := by
  have e1 : takeBeforeL "//".data D = D := takeBefore_no_slash _ hs
  have e2 : stripL D = D :=
    stripL_eq_self _ hh (fun c hc => goodIdentChar_not_ws c (hl c hc))
  have e3 : rstripSetL [',', ';'] D = D := by
    apply rstripSetL_eq_self
    intro c hc
    have hg := hl c hc
    have h1 : c ≠ ',' := goodChar_ne c ',' hg (by decide)
    have h2 : c ≠ ';' := goodChar_ne c ';' hg (by decide)
    simp [List.contains, h1, h2]
  rw [e1, e2, e3, e2]

theorem isPrefixOf_bracket_false (t : List Char) (c : Char) (h : c ≠ '[') :
    "[".data.isPrefixOf (c :: t) = false := by
  show List.isPrefixOf ['['] (c :: t) = false
  simp [List.isPrefixOf]
  exact fun he => h he.symm

theorem range_head (r : String) (hr0 : r.data ≠ []) (hr1 : "[".data.isPrefixOf r.data = true) :
    ∃ t, r.data = '[' :: t := by
  cases hx : r.data with
  | nil => exact absurd hx hr0
  | cons c cs =>
    rw [hx] at hr1
    have hbc : '[' = c := by
      revert hr1
      show List.isPrefixOf ['['] (c :: cs) = true → '[' = c
      simp [List.isPrefixOf]
    refine ⟨cs, ?_⟩
    rw [show c = '[' from hbc.symm]

theorem bracket_notin_svKeywords (t : List Char) : ('[' :: t) ∉ svKeywords := by
  intro hm
  simp only [svKeywords, List.mem_cons, List.not_mem_nil, or_false] at hm
  rcases hm with h | h | h | h <;> (injection h with h1 _; exact absurd h1 (by decide))

theorem parse_shape_range (n r : String) (hn : goodIdent n) (hr : goodRange r) :
    parse_sv_signal_info ("input " ++ r ++ " " ++ n) = (some n, some r) := by
  obtain ⟨hn0, hn1, hn2⟩ := hn
  obtain ⟨hr0, hr1, hr2⟩ := hr
  have hnc : ∀ c ∈ n.data, goodIdentChar c = true := List.all_eq_true.mp hn1
  have hrc : ∀ c ∈ r.data, goodRangeChar c = true := List.all_eq_true.mp hr2
  obtain ⟨nm, nb, hnd⟩ := exists_concat_of_ne_nil hn0
  have hnlast : goodIdentChar nb = true := hnc nb (by rw [hnd]; simp)
  have hD : ("input " ++ r ++ " " ++ n).data =
      "input".data ++ ' ' :: (r.data ++ ' ' :: n.data) := by
    simp [List.append_assoc]
  have hs : ∀ c ∈ "input".data ++ ' ' :: (r.data ++ ' ' :: n.data), c ≠ '/' := by
    intro c hc
    rcases List.mem_append.mp hc with h1 | h2
    · fin_cases h1 <;> decide
    · rcases List.mem_cons.mp h2 with rfl | h3
      · decide
      · rcases List.mem_append.mp h3 with h4 | h5
        · exact goodChar_ne c '/' (hrc c h4) (by decide)
        · rcases List.mem_cons.mp h5 with rfl | h6
          · decide
          · exact goodChar_ne c '/' (hnc c h6) (by decide)
  have hgl : ("input".data ++ ' ' :: (r.data ++ ' ' :: n.data)).getLast? = some nb := by
    rw [hnd]
    have harr : "input".data ++ ' ' :: (r.data ++ ' ' :: (nm ++ [nb])) =
        ("input".data ++ ' ' :: (r.data ++ ' ' :: nm)) ++ [nb] := by simp
    rw [harr, List.getLast?_append]
    rfl
  have hl : ∀ c ∈ ("input".data ++ ' ' :: (r.data ++ ' ' :: n.data)).getLast?,
      goodIdentChar c = true := by
    intro c hc
    rw [hgl] at hc
    simp at hc
    subst hc
    exact hnlast
  have hh : ∀ c ∈ ("input".data ++ ' ' :: (r.data ++ ' ' :: n.data)).head?,
      isPySpace c = false := by
    intro c hc
    have he : ("input".data ++ ' ' :: (r.data ++ ' ' :: n.data)).head? = some 'i' := rfl
    rw [he] at hc
    simp at hc
    subst hc
    decide
  have hcore : stripL (rstripSetL [',', ';'] (stripL (takeBeforeL "//".data
      ("input " ++ r ++ " " ++ n).data))) =
      "input".data ++ ' ' :: (r.data ++ ' ' :: n.data) := by
    rw [hD]
    exact core_eq_self _ hh hl hs
  have hsplitD : splitWsL ("input".data ++ ' ' :: (r.data ++ ' ' :: n.data)) =
      ["input".data, r.data, n.data] := by
    have hj : "input".data ++ ' ' :: (r.data ++ ' ' :: n.data) =
        joinSp ["input".data, r.data, n.data] := rfl
    rw [hj]
    apply splitWs_join
    intro w hw
    simp at hw
    rcases hw with rfl | rfl | rfl
    · exact ⟨by decide, by decide⟩
    · exact ⟨hr0, fun c hc => goodRangeChar_not_ws c (hrc c hc)⟩
    · exact ⟨hn0, fun c hc => goodIdentChar_not_ws c (hnc c hc)⟩
  obtain ⟨rt, hrd⟩ := range_head r hr0 hr1
  have hrm : r.data ∉ svKeywords := by rw [hrd]; exact bracket_notin_svKeywords rt
  have hnm : n.data ∉ svKeywords := by simpa using hn2
  have hinm : ("input".data : List Char) ∈ svKeywords := by decide
  rw [parse_sv_signal_info_def, hcore, hsplitD]
  have hfilter : (["input".data, r.data, n.data].filter (fun t => !(svKeywords.contains t))) =
      [r.data, n.data] := by
    simp [List.filter_cons, hinm, hrm, hnm]
  rw [hfilter]
  have hpre : "input".data.isPrefixOf ("input".data ++ ' ' :: (r.data ++ ' ' :: n.data)) = true :=
    isPrefixOf_self_append _ _
  rw [hpre]
  simp only [if_true, hr1]
  rfl

theorem parse_shape_plain (n : String) (hn : goodIdent n) :
    parse_sv_signal_info ("input " ++ n) = (some n, some "") := by
  obtain ⟨hn0, hn1, hn2⟩ := hn
  have hnc : ∀ c ∈ n.data, goodIdentChar c = true := List.all_eq_true.mp hn1
  obtain ⟨nm, nb, hnd⟩ := exists_concat_of_ne_nil hn0
  have hnlast : goodIdentChar nb = true := hnc nb (by rw [hnd]; simp)
  have hD : ("input " ++ n).data = "input".data ++ ' ' :: n.data := by
    simp [List.append_assoc]
  have hs : ∀ c ∈ "input".data ++ ' ' :: n.data, c ≠ '/' := by
    intro c hc
    rcases List.mem_append.mp hc with h1 | h2
    · fin_cases h1 <;> decide
    · rcases List.mem_cons.mp h2 with rfl | h3
      · decide
      · exact goodChar_ne c '/' (hnc c h3) (by decide)
  have hgl : ("input".data ++ ' ' :: n.data).getLast? = some nb := by
    rw [hnd]
    have harr : "input".data ++ ' ' :: (nm ++ [nb]) =
        ("input".data ++ ' ' :: nm) ++ [nb] := by simp
    rw [harr, List.getLast?_append]
    rfl
  have hl : ∀ c ∈ ("input".data ++ ' ' :: n.data).getLast?, goodIdentChar c = true := by
    intro c hc
    rw [hgl] at hc
    simp at hc
    subst hc
    exact hnlast
  have hh : ∀ c ∈ ("input".data ++ ' ' :: n.data).head?, isPySpace c = false := by
    intro c hc
    have he : ("input".data ++ ' ' :: n.data).head? = some 'i' := rfl
    rw [he] at hc
    simp at hc
    subst hc
    decide
  have hcore : stripL (rstripSetL [',', ';'] (stripL (takeBeforeL "//".data
      ("input " ++ n).data))) = "input".data ++ ' ' :: n.data := by
    rw [hD]
    exact core_eq_self _ hh hl hs
  have hsplitD : splitWsL ("input".data ++ ' ' :: n.data) = ["input".data, n.data] := by
    have hj : "input".data ++ ' ' :: n.data = joinSp ["input".data, n.data] := rfl
    rw [hj]
    apply splitWs_join
    intro w hw
    simp at hw
    rcases hw with rfl | rfl
    · exact ⟨by decide, by decide⟩
    · exact ⟨hn0, fun c hc => goodIdentChar_not_ws c (hnc c hc)⟩
  have hnm : n.data ∉ svKeywords := by simpa using hn2
  have hinm : ("input".data : List Char) ∈ svKeywords := by decide
  rw [parse_sv_signal_info_def, hcore, hsplitD]
  have hfilter : (["input".data, n.data].filter (fun t => !(svKeywords.contains t))) =
      [n.data] := by
    simp [List.filter_cons, hinm, hnm]
  rw [hfilter]
  have hpre : "input".data.isPrefixOf ("input".data ++ ' ' :: n.data) = true :=
    isPrefixOf_self_append _ _
  rw [hpre]
  have hnb : "[".data.isPrefixOf n.data = false := by
    obtain ⟨nh, nt, hnh⟩ : ∃ c t, n.data = c :: t := by
      cases hx : n.data with
      | nil => exact absurd hx hn0
      | cons c cs => exact ⟨c, cs, rfl⟩
    rw [hnh]
    exact isPrefixOf_bracket_false nt nh
      (goodChar_ne nh '[' (hnc nh (by rw [hnh]; simp)) (by decide))
  simp only [if_true, hnb]
  rfl

theorem parse_shape_kw (kw n r : String) (hn : goodIdent n) (hr : goodRange r)
    (hkw0 : kw.data ≠ []) (hkwc : ∀ c ∈ kw.data, goodIdentChar c = true)
    (hkwm : kw.data ∈ svKeywords) :
    parse_sv_signal_info ("input " ++ kw ++ " " ++ r ++ " " ++ n) = (some n, some r) := by
  obtain ⟨hn0, hn1, hn2⟩ := hn
  obtain ⟨hr0, hr1, hr2⟩ := hr
  have hnc : ∀ c ∈ n.data, goodIdentChar c = true := List.all_eq_true.mp hn1
  have hrc : ∀ c ∈ r.data, goodRangeChar c = true := List.all_eq_true.mp hr2
  obtain ⟨nm, nb, hnd⟩ := exists_concat_of_ne_nil hn0
  have hnlast : goodIdentChar nb = true := hnc nb (by rw [hnd]; simp)
  have hD : ("input " ++ kw ++ " " ++ r ++ " " ++ n).data =
      "input".data ++ ' ' :: (kw.data ++ ' ' :: (r.data ++ ' ' :: n.data)) := by
    simp [List.append_assoc]
  have hs : ∀ c ∈ "input".data ++ ' ' :: (kw.data ++ ' ' :: (r.data ++ ' ' :: n.data)),
      c ≠ '/' := by
    intro c hc
    rcases List.mem_append.mp hc with h1 | h2
    · fin_cases h1 <;> decide
    · rcases List.mem_cons.mp h2 with rfl | h3
      · decide
      · rcases List.mem_append.mp h3 with h4 | h5
        · exact goodChar_ne c '/' (hkwc c h4) (by decide)
        · rcases List.mem_cons.mp h5 with rfl | h6
          · decide
          · rcases List.mem_append.mp h6 with h7 | h8
            · exact goodChar_ne c '/' (hrc c h7) (by decide)
            · rcases List.mem_cons.mp h8 with rfl | h9
              · decide
              · exact goodChar_ne c '/' (hnc c h9) (by decide)
  have hgl : ("input".data ++ ' ' :: (kw.data ++ ' ' :: (r.data ++ ' ' :: n.data))).getLast? =
      some nb := by
    rw [hnd]
    have harr : "input".data ++ ' ' :: (kw.data ++ ' ' :: (r.data ++ ' ' :: (nm ++ [nb]))) =
        ("input".data ++ ' ' :: (kw.data ++ ' ' :: (r.data ++ ' ' :: nm))) ++ [nb] := by
      simp
    rw [harr, List.getLast?_append]
    rfl
  have hl : ∀ c ∈ ("input".data ++ ' ' :: (kw.data ++ ' ' :: (r.data ++ ' ' :: n.data))).getLast?,
      goodIdentChar c = true := by
    intro c hc
    rw [hgl] at hc
    simp at hc
    subst hc
    exact hnlast
  have hh : ∀ c ∈ ("input".data ++ ' ' :: (kw.data ++ ' ' :: (r.data ++ ' ' :: n.data))).head?,
      isPySpace c = false := by
    intro c hc
    have he : ("input".data ++ ' ' :: (kw.data ++ ' ' :: (r.data ++ ' ' :: n.data))).head? =
        some 'i' := rfl
    rw [he] at hc
    simp at hc
    subst hc
    decide
  have hcore : stripL (rstripSetL [',', ';'] (stripL (takeBeforeL "//".data
      ("input " ++ kw ++ " " ++ r ++ " " ++ n).data))) =
      "input".data ++ ' ' :: (kw.data ++ ' ' :: (r.data ++ ' ' :: n.data)) := by
    rw [hD]
    exact core_eq_self _ hh hl hs
  have hsplitD : splitWsL ("input".data ++ ' ' :: (kw.data ++ ' ' :: (r.data ++ ' ' :: n.data))) =
      ["input".data, kw.data, r.data, n.data] := by
    have hj : "input".data ++ ' ' :: (kw.data ++ ' ' :: (r.data ++ ' ' :: n.data)) =
        joinSp ["input".data, kw.data, r.data, n.data] := rfl
    rw [hj]
    apply splitWs_join
    intro w hw
    simp at hw
    rcases hw with rfl | rfl | rfl | rfl
    · exact ⟨by decide, by decide⟩
    · exact ⟨hkw0, fun c hc => goodIdentChar_not_ws c (hkwc c hc)⟩
    · exact ⟨hr0, fun c hc => goodRangeChar_not_ws c (hrc c hc)⟩
    · exact ⟨hn0, fun c hc => goodIdentChar_not_ws c (hnc c hc)⟩
  obtain ⟨rt, hrd⟩ := range_head r hr0 hr1
  have hrm : r.data ∉ svKeywords := by rw [hrd]; exact bracket_notin_svKeywords rt
  have hnm : n.data ∉ svKeywords := by simpa using hn2
  have hinm : ("input".data : List Char) ∈ svKeywords := by decide
  rw [parse_sv_signal_info_def, hcore, hsplitD]
  have hfilter : (["input".data, kw.data, r.data, n.data].filter
      (fun t => !(svKeywords.contains t))) = [r.data, n.data] := by
    simp [List.filter_cons, hinm, hkwm, hrm, hnm]
  rw [hfilter]
  have hpre : "input".data.isPrefixOf
      ("input".data ++ ' ' :: (kw.data ++ ' ' :: (r.data ++ ' ' :: n.data))) = true :=
    isPrefixOf_self_append _ _
  rw [hpre]
  simp only [if_true, hr1]
  rfl

/-- Claim C5, counterexample: a line consisting of only the direction keyword
`input` yields `(none, some "")` — name `None` with an *empty range string* —
not `(none, none)` as the claim states. -/
theorem c5_counterexample : parse_sv_signal_info "input" ≠ (none, none) := by
  decide

theorem splitWsGo_ws1 (a : Char) (l acc : List Char) (ha : isPySpace a = true) :
    splitWsGo (a :: l) acc = (if acc.isEmpty then [] else [acc.reverse]) ++ splitWsGo l [] := by
  rw [splitWsGo]
  cases hacc : acc.isEmpty <;> simp [ha, hacc]

theorem splitWsGo_wsrun : ∀ (s : List Char), s ≠ [] → (∀ c ∈ s, isPySpace c = true) →
    ∀ (l acc : List Char), splitWsGo (s ++ l) acc =
      (if acc.isEmpty then [] else [acc.reverse]) ++ splitWsGo l [] := by
  intro s
  induction s with
  | nil => intro h; exact absurd rfl h
  | cons a s2 ih =>
    intro _ hws l acc
    rw [List.cons_append, splitWsGo_ws1 a _ acc (hws a (by simp))]
    cases hs2 : s2 with
    | nil =>
      subst hs2
      simp
    | cons b s3 =>
      subst hs2
      rw [ih (by simp) (fun c hc => hws c (by simp [hc])) l []]
      simp

theorem splitWsGo_joinSeps : ∀ (ps : List (List Char × List Char)),
    (∀ p ∈ ps, (p.1 ≠ [] ∧ ∀ c ∈ p.1, isPySpace c = true) ∧
      (p.2 ≠ [] ∧ ∀ c ∈ p.2, isPySpace c = false)) →
    ∀ (acc : List Char), splitWsGo (joinSeps ps) acc =
      (if acc.isEmpty then [] else [acc.reverse]) ++ ps.map (fun p => p.2) := by
  intro ps
  induction ps with
  | nil =>
    intro _ acc
    rw [show joinSeps [] = [] from rfl, splitWsGo]
    cases hacc : acc.isEmpty <;> simp [hacc]
  | cons p rest ih =>
    rcases p with ⟨s, w⟩
    intro h acc
    obtain ⟨⟨hs0, hsw⟩, hw0, hww⟩ := h (s, w) (by simp)
    rw [show joinSeps ((s, w) :: rest) = s ++ (w ++ joinSeps rest) from rfl]
    rw [splitWsGo_wsrun s hs0 hsw _ acc]
    rw [splitWsGo_word w _ [] hww]
    rw [ih (fun q hq => h q (by simp [hq])) (w.reverse ++ [])]
    have hne : (w.reverse ++ []).isEmpty = false := by
      rw [List.append_nil]
      cases hw : w.reverse with
      | nil => exact absurd (by simpa using congrArg List.reverse hw) hw0
      | cons x xs => rfl
    have hw2 : w ≠ [] := hw0
    simp [hne, hw2]

theorem splitWs_input_seps (ps : List (List Char × List Char))
    (h : ∀ p ∈ ps, (p.1 ≠ [] ∧ ∀ c ∈ p.1, isPySpace c = true) ∧
      (p.2 ≠ [] ∧ ∀ c ∈ p.2, isPySpace c = false)) :
    splitWsL ("input".data ++ joinSeps ps) = "input".data :: ps.map (fun p => p.2) := by
  unfold splitWsL
  rw [splitWsGo_word "input".data _ [] (by decide)]
  rw [splitWsGo_joinSeps ps h ("input".data.reverse ++ [])]
  have h1 : (("input".data.reverse ++ []) : List Char).isEmpty = false := by decide
  have h2 : (("input".data.reverse ++ []) : List Char).reverse = "input".data := by decide
  rw [h1, h2]
  simp

theorem kwPair_word (p : List Char × List Char) (h : kwPairOK p) :
    (p.1 ≠ [] ∧ ∀ c ∈ p.1, isPySpace c = true) ∧
    (p.2 ≠ [] ∧ ∀ c ∈ p.2, isPySpace c = false) := by
  obtain ⟨hws, hk⟩ := h
  refine ⟨hws, ?_⟩
  rcases hk with h2 | h2 | h2 <;> rw [h2] <;> exact ⟨by decide, by decide⟩

theorem filter_not_kw_cons_kw (t : List Char) (L : List (List Char))
    (h : t ∈ svKeywords) :
    (t :: L).filter (fun x => !(svKeywords.contains x)) =
      L.filter (fun x => !(svKeywords.contains x)) := by
  rw [List.filter_cons]
  simp [h]

theorem filter_not_kw_cons_ok (t : List Char) (L : List (List Char))
    (h : t ∉ svKeywords) :
    (t :: L).filter (fun x => !(svKeywords.contains x)) =
      t :: L.filter (fun x => !(svKeywords.contains x)) := by
  rw [List.filter_cons]
  simp [h]

theorem kwmap_filter (ks : List (List Char × List Char)) (h : ∀ p ∈ ks, kwPairOK p) :
    (ks.map (fun p => p.2)).filter (fun t => !(svKeywords.contains t)) = [] := by
  induction ks with
  | nil => rfl
  | cons p rest ih =>
    have hm2 : p.2 ∈ svKeywords := by
      rcases (h p (by simp)).2 with h2 | h2 | h2 <;> rw [h2] <;> decide
    rw [List.map_cons, filter_not_kw_cons_kw _ _ hm2]
    exact ih (fun q hq => h q (by simp [hq]))

theorem parse_core_range (line n r : String) (ks : List (List Char × List Char))
    (sr sn : List Char) (hks : ∀ p ∈ ks, kwPairOK p) (hn : goodIdent n) (hr : goodRange r)
    (hsr : wsRun sr) (hsn : wsRun sn)
    (hcore : stripL (rstripSetL [',', ';'] (stripL (takeBeforeL "//".data line.data))) =
      "input".data ++ joinSeps (ks ++ [(sr, r.data), (sn, n.data)])) :
    parse_sv_signal_info line = (some n, some r) := by
  obtain ⟨hn0, hn1, hn2⟩ := hn
  obtain ⟨hr0, hr1, hr2⟩ := hr
  have hnc := List.all_eq_true.mp hn1
  have hrc := List.all_eq_true.mp hr2
  have hps : ∀ p ∈ ks ++ [(sr, r.data), (sn, n.data)],
      (p.1 ≠ [] ∧ ∀ c ∈ p.1, isPySpace c = true) ∧
      (p.2 ≠ [] ∧ ∀ c ∈ p.2, isPySpace c = false) := by
    intro p hp
    rcases List.mem_append.mp hp with h1 | h2
    · exact kwPair_word p (hks p h1)
    · rcases List.mem_cons.mp h2 with rfl | h3
      · exact ⟨hsr, hr0, fun c hc => goodRangeChar_not_ws c (hrc c hc)⟩
      · rcases List.mem_cons.mp h3 with rfl | h4
        · exact ⟨hsn, hn0, fun c hc => goodIdentChar_not_ws c (hnc c hc)⟩
        · exact absurd h4 (List.not_mem_nil p)
  obtain ⟨rt, hrd⟩ := range_head r hr0 hr1
  have hrm : r.data ∉ svKeywords := by rw [hrd]; exact bracket_notin_svKeywords rt
  have hnm : n.data ∉ svKeywords := by simpa using hn2
  rw [parse_sv_signal_info_def, hcore, splitWs_input_seps _ hps]
  have hpre : "input".data.isPrefixOf
      ("input".data ++ joinSeps (ks ++ [(sr, r.data), (sn, n.data)])) = true :=
    isPrefixOf_self_append _ _
  rw [hpre]
  have hfilter : (("input".data :: (ks ++ [(sr, r.data), (sn, n.data)]).map
      (fun p => p.2)).filter (fun t => !(svKeywords.contains t))) = [r.data, n.data] := by
    rw [List.map_append, filter_not_kw_cons_kw _ _ (by decide), List.filter_append,
      kwmap_filter ks hks, List.nil_append]
    rw [show (([(sr, r.data), (sn, n.data)].map (fun p => p.2)) : List (List Char)) =
      [r.data, n.data] from rfl]
    rw [filter_not_kw_cons_ok _ _ hrm, filter_not_kw_cons_ok _ _ hnm]
    rfl
  rw [hfilter]
  simp only [if_true, hr1]
  rfl

theorem parse_core_norange (line n : String) (ks : List (List Char × List Char))
    (sn : List Char) (hks : ∀ p ∈ ks, kwPairOK p) (hn : goodIdent n) (hsn : wsRun sn)
    (hcore : stripL (rstripSetL [',', ';'] (stripL (takeBeforeL "//".data line.data))) =
      "input".data ++ joinSeps (ks ++ [(sn, n.data)])) :
    parse_sv_signal_info line = (some n, some "") := by
  obtain ⟨hn0, hn1, hn2⟩ := hn
  have hnc := List.all_eq_true.mp hn1
  have hps : ∀ p ∈ ks ++ [(sn, n.data)],
      (p.1 ≠ [] ∧ ∀ c ∈ p.1, isPySpace c = true) ∧
      (p.2 ≠ [] ∧ ∀ c ∈ p.2, isPySpace c = false) := by
    intro p hp
    rcases List.mem_append.mp hp with h1 | h2
    · exact kwPair_word p (hks p h1)
    · rcases List.mem_cons.mp h2 with rfl | h3
      · exact ⟨hsn, hn0, fun c hc => goodIdentChar_not_ws c (hnc c hc)⟩
      · exact absurd h3 (List.not_mem_nil p)
  have hnm : n.data ∉ svKeywords := by simpa using hn2
  rw [parse_sv_signal_info_def, hcore, splitWs_input_seps _ hps]
  have hpre : "input".data.isPrefixOf
      ("input".data ++ joinSeps (ks ++ [(sn, n.data)])) = true :=
    isPrefixOf_self_append _ _
  rw [hpre]
  have hfilter : (("input".data :: (ks ++ [(sn, n.data)]).map
      (fun p => p.2)).filter (fun t => !(svKeywords.contains t))) = [n.data] := by
    rw [List.map_append, filter_not_kw_cons_kw _ _ (by decide), List.filter_append,
      kwmap_filter ks hks, List.nil_append]
    rw [show (([(sn, n.data)].map (fun p => p.2)) : List (List Char)) = [n.data] from rfl]
    rw [filter_not_kw_cons_ok _ _ hnm]
    rfl
  rw [hfilter]
  have hnb : "[".data.isPrefixOf n.data = false := by
    obtain ⟨nh, nt, hnh⟩ : ∃ c t, n.data = c :: t := by
      cases hx : n.data with
      | nil => exact absurd hx hn0
      | cons c cs => exact ⟨c, cs, rfl⟩
    rw [hnh]
    exact isPrefixOf_bracket_false nt nh
      (goodChar_ne nh '[' (hnc nh (by rw [hnh]; simp)) (by decide))
  simp only [if_true, hnb]
  rfl

theorem parse_core_kwonly (line : String) (ks : List (List Char × List Char))
    (hks : ∀ p ∈ ks, kwPairOK p)
    (hcore : stripL (rstripSetL [',', ';'] (stripL (takeBeforeL "//".data line.data))) =
      "input".data ++ joinSeps ks) :
    parse_sv_signal_info line = (none, some "") := by
  have hps : ∀ p ∈ ks,
      (p.1 ≠ [] ∧ ∀ c ∈ p.1, isPySpace c = true) ∧
      (p.2 ≠ [] ∧ ∀ c ∈ p.2, isPySpace c = false) :=
    fun p hp => kwPair_word p (hks p hp)
  rw [parse_sv_signal_info_def, hcore, splitWs_input_seps _ hps]
  have hpre : "input".data.isPrefixOf ("input".data ++ joinSeps ks) = true :=
    isPrefixOf_self_append _ _
  rw [hpre]
  have hfilter : (("input".data :: ks.map (fun p => p.2)).filter
      (fun t => !(svKeywords.contains t))) = [] := by
    rw [filter_not_kw_cons_kw _ _ (by decide), kwmap_filter ks hks]
  rw [hfilter]
  rfl

/-- Claim C5, amended: for every line whose comment/trim/comma-stripped core is
a valid single-direction declaration — `input`, any number of `logic`/`wire`/
`reg` keywords, an optional bracketed range, and a signal name, the tokens
separated by arbitrary whitespace runs — the Signal Parser returns the pair
`(N, R)` (with `R = ""` when no range is present); any line not starting with
`input` after that stripping yields `(none, none)`; but a line whose core is
only direction/type keywords with no signal name — in particular the bare
`input` line — yields `(none, some "")`, not `(none, none)`. -/
theorem c5_signal_parser_amended :
    (∀ (line n r : String) (ks : List (List Char × List Char)) (sr sn : List Char),
        (∀ p ∈ ks, kwPairOK p) → goodIdent n → goodRange r → wsRun sr → wsRun sn →
        stripL (rstripSetL [',', ';'] (stripL (takeBeforeL "//".data line.data))) =
          "input".data ++ joinSeps (ks ++ [(sr, r.data), (sn, n.data)]) →
        parse_sv_signal_info line = (some n, some r)) ∧
    (∀ (line n : String) (ks : List (List Char × List Char)) (sn : List Char),
        (∀ p ∈ ks, kwPairOK p) → goodIdent n → wsRun sn →
        stripL (rstripSetL [',', ';'] (stripL (takeBeforeL "//".data line.data))) =
          "input".data ++ joinSeps (ks ++ [(sn, n.data)]) →
        parse_sv_signal_info line = (some n, some "")) ∧
    (∀ line : String,
        "input".data.isPrefixOf
          (stripL (rstripSetL [',', ';'] (stripL (takeBeforeL "//".data line.data)))) = false →
        parse_sv_signal_info line = (none, none)) ∧
    (∀ (line : String) (ks : List (List Char × List Char)),
        (∀ p ∈ ks, kwPairOK p) →
        stripL (rstripSetL [',', ';'] (stripL (takeBeforeL "//".data line.data))) =
          "input".data ++ joinSeps ks →
        parse_sv_signal_info line = (none, some "")) ∧
    parse_sv_signal_info "input" = (none, some "") := by
  refine ⟨parse_core_range, parse_core_norange, ?_, parse_core_kwonly, by decide⟩
  intro line h
  rw [parse_sv_signal_info_def, h]
  simp

/-- Witness for C5 at concrete inputs, including non-canonical spacing, a
trailing comma and comment, a keyword without a range, and a keyword-only
line. -/
theorem c5_witness :
    goodIdent "foo" ∧ goodRange "[3:0]" ∧
    parse_sv_signal_info "  input   [3:0]   foo , // comment" = (some "foo", some "[3:0]") ∧
    parse_sv_signal_info "input wire foo," = (some "foo", some "") ∧
    parse_sv_signal_info "input logic wire [3:0] foo;" = (some "foo", some "[3:0]") ∧
    parse_sv_signal_info "assign x = y;" = (none, none) ∧
    parse_sv_signal_info "input wire" = (none, some "") ∧
    parse_sv_signal_info "input" = (none, some "") :=
  ⟨by decide, by decide,
   c5_signal_parser_amended.1 "  input   [3:0]   foo , // comment" "foo" "[3:0]" []
     [' ', ' ', ' '] [' ', ' ', ' '] (by decide) (by decide) (by decide) (by decide)
     (by decide) (by decide),
   c5_signal_parser_amended.2.1 "input wire foo," "foo" [([' '], "wire".data)] [' ']
     (by decide) (by decide) (by decide) (by decide),
   c5_signal_parser_amended.1 "input logic wire [3:0] foo;" "foo" "[3:0]"
     [([' '], "logic".data), ([' '], "wire".data)] [' '] [' ']
     (by decide) (by decide) (by decide) (by decide) (by decide) (by decide),
   c5_signal_parser_amended.2.2.1 "assign x = y;" (by decide),
   c5_signal_parser_amended.2.2.2.1 "input wire" [([' '], "wire".data)] (by decide) (by decide),
   c5_signal_parser_amended.2.2.2.2⟩


theorem parse_sv_parameters_info_cons (l : String) (rest : List String) :
    parse_sv_parameters_info (l :: rest) =
      (if (paramCore l).contains '=' then
        match splitOnceL ['='] (paramCore l) with
        | some (n, d) =>
          ((⟨stripL n⟩ : String), (⟨stripL d⟩ : String)) :: parse_sv_parameters_info rest
        | none => parse_sv_parameters_info rest
      else parse_sv_parameters_info rest) := rfl

theorem paramLineAmended_eq (l : String) :
    paramLineAmended l =
      (if (paramCore l).contains '=' then
        match splitOnceL ['='] (paramCore l) with
        | some (n, d) => some ((⟨stripL n⟩ : String), (⟨stripL d⟩ : String))
        | none => none
      else none) := rfl

/-- Claim C8, counterexample: on the line `parameter_width = 8` the builder
strips the nine-character prefix `parameter` out of the identifier and returns
`("_width", "8")`, while the claim's keyword-token reading demands
`("parameter_width", "8")`. -/
theorem c8_counterexample :
    parse_sv_parameters_info ["parameter_width = 8"] = [("_width", "8")] ∧
    ["parameter_width = 8"].filterMap paramLineClaimC8 = [("parameter_width", "8")] ∧
    parse_sv_parameters_info ["parameter_width = 8"] ≠
      ["parameter_width = 8"].filterMap paramLineClaimC8 :=
  ⟨by decide, by decide, by decide⟩

/-- Claim C8, amended: the Parameter Table Builder returns, in input order,
exactly one `(name, default)` pair per line that still contains `=` after
stripping the trailing comment, trailing commas, and a leading `parameter`
*prefix* (`str.startswith` semantics, which also fires inside longer
identifiers such as `parameter_width`), splitting once on the first `=` with
whitespace trimmed on both sides; lines without `=` contribute nothing. -/
theorem c8_param_builder_amended (lines : List String) :
    parse_sv_parameters_info lines = lines.filterMap paramLineAmended := by
  induction lines with
  | nil => rfl
  | cons l rest ih =>
    rw [parse_sv_parameters_info_cons, List.filterMap_cons, paramLineAmended_eq]
    cases hc : (paramCore l).contains '=' with
    | false => simp [ih]
    | true =>
      cases hs : splitOnceL ['='] (paramCore l) with
      | none => simp [ih]
      | some p => cases p with
        | mk n d => simp [ih]





theorem parse_eq_of_same_core (a b : String)
    (h : stripL (rstripSetL [',', ';'] (stripL (takeBeforeL "//".data a.data))) =
      stripL (rstripSetL [',', ';'] (stripL (takeBeforeL "//".data b.data)))) :
    parse_sv_signal_info a = parse_sv_signal_info b := by
  rw [parse_sv_signal_info_def, parse_sv_signal_info_def, h]

theorem splitlinesL_eq_nil_iff (l : List Char) : splitlinesL l = [] ↔ l = [] := by
  constructor
  · intro h
    cases l with
    | nil => rfl
    | cons c cs =>
      by_cases hc : c = '\n'
      · subst hc; simp [splitlinesL] at h
      · rw [splitlinesL] at h
        simp [hc] at h
        rcases hx : splitlinesL cs with _ | ⟨L, Ls⟩ <;> rw [hx] at h <;> simp at h
  · intro h; subst h; rfl

theorem splitlines_append_line (xs ys : List Char) (h : '\n' ∉ xs) :
    splitlinesL (xs ++ '\n' :: ys) = xs :: splitlinesL ys := by
  induction xs with
  | nil => rfl
  | cons c cs ih =>
    have hc : ¬ (c = '\n') := fun he => h (by simp [he])
    rw [List.cons_append, splitlinesL]
    simp only [hc, if_false]
    rw [ih (fun hm => h (by simp [hm]))]

theorem splitlines_single (l : List Char) (h : '\n' ∉ l) (hne : l ≠ []) :
    splitlinesL l = [l] := by
  induction l with
  | nil => exact absurd rfl hne
  | cons c cs ih =>
    have hc : ¬ (c = '\n') := fun he => h (by simp [he])
    rw [splitlinesL]
    simp only [hc, if_false]
    cases hcs : cs with
    | nil => rfl
    | cons d ds =>
      rw [← hcs, ih (fun hm => h (by simp [hm])) (by rw [hcs]; simp)]

theorem parseNameL_nil : parseNameL [] = none := rfl

theorem namesOf_join (ls : List (List Char)) (h : ∀ l ∈ ls, '\n' ∉ l) :
    namesOfL (joinWithNL ls) = ls.filterMap parseNameL := by
  induction ls with
  | nil => rfl
  | cons l rest ih =>
    cases rest with
    | nil =>
      show namesOfL l = List.filterMap parseNameL [l]
      unfold namesOfL
      by_cases hl : l = []
      · subst hl; rfl
      · rw [splitlines_single l (h l (by simp)) hl]
    | cons l2 rest2 =>
      show namesOfL (l ++ '\n' :: joinWithNL (l2 :: rest2)) = _
      unfold namesOfL
      rw [splitlines_append_line _ _ (h l (by simp))]
      rw [List.filterMap_cons, List.filterMap_cons]
      have := ih (fun x hx => h x (by simp [hx]))
      unfold namesOfL at this
      rw [this]



theorem isPrefixOf_append_right (p x s : List Char) (h : p.isPrefixOf x = true) :
    p.isPrefixOf (x ++ s) = true := by
  induction p generalizing x with
  | nil => simp [List.isPrefixOf]
  | cons a as ih =>
    cases x with
    | nil => simp [List.isPrefixOf] at h
    | cons b bs =>
      simp only [List.isPrefixOf, Bool.and_eq_true] at h ⊢
      exact ⟨h.1, ih bs h.2⟩

theorem takeBefore_eq_self_of_not_contains (sep l : List Char)
    (h : containsSubL sep l = false) : takeBeforeL sep l = l := by
  induction l with
  | nil => rfl
  | cons c cs ih =>
    rw [containsSubL, Bool.or_eq_false_iff] at h
    rw [takeBeforeL, h.1]
    simp [ih h.2]

theorem takeBefore_append_single (L : List Char) (a : Char) (ha : a ≠ '/') :
    takeBeforeL "//".data (L ++ [a]) =
      takeBeforeL "//".data L ++ (if containsSubL "//".data L then [] else [a]) := by
  induction L with
  | nil =>
    have : "//".data.isPrefixOf [a] = false := by
      show List.isPrefixOf ['/', '/'] [a] = false
      simp [List.isPrefixOf]
    simp [takeBeforeL, containsSubL, this]
  | cons c L' ih =>
    by_cases hp : "//".data.isPrefixOf (c :: L') = true
    · have hp2 : "//".data.isPrefixOf (c :: (L' ++ [a])) = true :=
        isPrefixOf_append_right _ (c :: L') [a] hp
      rw [List.cons_append, takeBeforeL]
      simp only [hp2, if_true]
      rw [takeBeforeL]
      simp only [hp, if_true]
      rw [containsSubL]
      simp [hp]
    · have hpf : "//".data.isPrefixOf (c :: L') = false := by
        cases hx : "//".data.isPrefixOf (c :: L') with
        | false => rfl
        | true => exact absurd hx hp
      have hp2 : "//".data.isPrefixOf (c :: (L' ++ [a])) = false := by
        cases L' with
        | nil =>
          show List.isPrefixOf ['/', '/'] (c :: [a]) = false
          simp [List.isPrefixOf]
          exact fun _ he => ha he.symm
        | cons d ds =>
          revert hpf
          show List.isPrefixOf ['/', '/'] (c :: d :: ds) = false →
            List.isPrefixOf ['/', '/'] (c :: d :: ds ++ [a]) = false
          simp [List.isPrefixOf]
      rw [List.cons_append, takeBeforeL]
      simp only [hp2, if_false]
      rw [takeBeforeL]
      simp only [hpf, if_false]
      rw [containsSubL]
      simp only [hpf, Bool.false_or]
      rw [ih]
      simp

theorem rstripL_append_ws (z : List Char) (a : Char) (ha : isPySpace a = true) :
    rstripL (z ++ [a]) = rstripL z := by
  unfold rstripL
  rw [List.reverse_append]
  simp [List.dropWhile_cons, ha]

theorem rstripL_append_nonws (z : List Char) (a : Char) (ha : isPySpace a = false) :
    rstripL (z ++ [a]) = z ++ [a] := by
  unfold rstripL
  rw [List.reverse_append]
  simp [List.dropWhile_cons, ha]

theorem stripL_append_ws (z : List Char) (a : Char) (ha : isPySpace a = true) :
    stripL (z ++ [a]) = stripL z := by
  unfold stripL lstripL
  rw [List.dropWhile_append]
  by_cases hz : (z.dropWhile isPySpace).isEmpty = true
  · simp only [hz, if_true]
    have h1 : List.dropWhile isPySpace [a] = [] := by simp [List.dropWhile_cons, ha]
    rw [h1]
    have h2 : z.dropWhile isPySpace = [] := by
      rw [List.isEmpty_iff] at hz
      exact hz
    rw [h2]
  · simp only [hz, if_false]
    exact rstripL_append_ws _ a ha

theorem parseName_append_ws (L : List Char) (a : Char) (ha : isPySpace a = true) :
    parseNameL (L ++ [a]) = parseNameL L := by
  unfold parseNameL
  have ha' : a ≠ '/' := by
    intro he
    subst he
    simp [isPySpace] at ha
  have hcore : stripL (rstripSetL [',', ';'] (stripL (takeBeforeL "//".data
      (⟨L ++ [a]⟩ : String).data))) =
      stripL (rstripSetL [',', ';'] (stripL (takeBeforeL "//".data (⟨L⟩ : String).data))) := by
    show stripL (rstripSetL [',', ';'] (stripL (takeBeforeL "//".data (L ++ [a])))) = _
    rw [takeBefore_append_single L a ha']
    by_cases hc : containsSubL "//".data L = true
    · simp [hc]
    · rw [if_neg hc, stripL_append_ws _ a ha]
  rw [parse_eq_of_same_core _ _ hcore]

theorem parseName_cons_ws (L : List Char) (c : Char) (hc : isPySpace c = true) :
    parseNameL (c :: L) = parseNameL L := by
  unfold parseNameL
  have hc' : c ≠ '/' := by
    intro he
    subst he
    simp [isPySpace] at hc
  have htb : takeBeforeL "//".data (c :: L) = c :: takeBeforeL "//".data L := by
    rw [takeBeforeL]
    have : "//".data.isPrefixOf (c :: L) = false := by
      show List.isPrefixOf ['/', '/'] (c :: L) = false
      simp [List.isPrefixOf]
      exact fun he => (hc' he.symm).elim
    simp [this]
  have hst : stripL (c :: takeBeforeL "//".data L) = stripL (takeBeforeL "//".data L) := by
    unfold stripL lstripL
    simp [List.dropWhile_cons, hc]
  have hcore : stripL (rstripSetL [',', ';'] (stripL (takeBeforeL "//".data
      (⟨c :: L⟩ : String).data))) =
      stripL (rstripSetL [',', ';'] (stripL (takeBeforeL "//".data (⟨L⟩ : String).data))) := by
    show stripL (rstripSetL [',', ';'] (stripL (takeBeforeL "//".data (c :: L)))) = _
    rw [htb, hst]
  rw [parse_eq_of_same_core _ _ hcore]



theorem splitlines_cons_nl (cs : List Char) : splitlinesL ('\n' :: cs) = [] :: splitlinesL cs := by
  rw [splitlinesL]
  simp

theorem parseName_single_ws (a : Char) (ha : isPySpace a = true) : parseNameL [a] = none := by
  have h := parseName_append_ws [] a ha
  simpa [parseNameL_nil] using h

theorem namesOf_cons_ws (c : Char) (hc : isPySpace c = true) (cs : List Char) :
    namesOfL (c :: cs) = namesOfL cs := by
  by_cases hn : c = '\n'
  · subst hn
    unfold namesOfL
    rw [splitlines_cons_nl]
    simp [List.filterMap_cons, parseNameL_nil]
  · unfold namesOfL
    rw [splitlinesL]
    simp only [hn, if_false]
    cases hcs : splitlinesL cs with
    | nil =>
      have hcs0 : cs = [] := (splitlinesL_eq_nil_iff cs).mp hcs
      subst hcs0
      simp [List.filterMap_cons, parseName_single_ws c hc]
    | cons m ms =>
      rw [List.filterMap_cons, List.filterMap_cons, parseName_cons_ws m c hc]

theorem namesOf_lstrip (x : List Char) : namesOfL (lstripL x) = namesOfL x := by
  induction x with
  | nil => rfl
  | cons c cs ih =>
    by_cases hc : isPySpace c = true
    · rw [show lstripL (c :: cs) = lstripL cs from by simp [lstripL, List.dropWhile_cons, hc],
        ih, namesOf_cons_ws c hc cs]
    · have hcf : isPySpace c = false := by
        cases h : isPySpace c with
        | false => rfl
        | true => exact absurd h hc
      rw [show lstripL (c :: cs) = c :: cs from by simp [lstripL, List.dropWhile_cons, hcf]]

theorem nl_decomp (z : List Char) :
    '\n' ∉ z ∨ ∃ w rest, z = w ++ '\n' :: rest ∧ '\n' ∉ w := by
  induction z with
  | nil => left; simp
  | cons c cs ih =>
    by_cases hc : c = '\n'
    · right
      exact ⟨[], cs, by simp [hc], by simp⟩
    · rcases ih with h | ⟨w, rest, hz, hw⟩
      · left
        simp [hc, h]
        exact fun he => hc he.symm
      · right
        refine ⟨c :: w, rest, by simp [hz], ?_⟩
        simp [hw]
        exact fun he => hc he.symm

theorem namesOf_append_ws_nonl (a : Char) (ha : isPySpace a = true) (z : List Char)
    (h : '\n' ∉ z) : namesOfL (z ++ [a]) = namesOfL z := by
  by_cases hz0 : z = []
  · subst hz0
    by_cases han : a = '\n'
    · subst han
      unfold namesOfL
      rw [List.nil_append, splitlines_cons_nl]
      simp [List.filterMap_cons, parseNameL_nil]
    · unfold namesOfL
      have hna : '\n' ∉ [a] := by
        simp
        exact fun he => han he.symm
      rw [List.nil_append, splitlines_single [a] hna (by simp)]
      simp [List.filterMap_cons, parseName_single_ws a ha,
        show splitlinesL ([] : List Char) = [] from rfl]
  · by_cases han : a = '\n'
    · subst han
      unfold namesOfL
      rw [show z ++ ['\n'] = z ++ '\n' :: [] from rfl, splitlines_append_line z [] h,
        splitlines_single z h hz0]
      rfl
    · unfold namesOfL
      have h2 : '\n' ∉ z ++ [a] := by
        intro hm
        rcases List.mem_append.mp hm with h3 | h4
        · exact h h3
        · simp at h4
          exact han h4.symm
      rw [splitlines_single (z ++ [a]) h2 (by simp), splitlines_single z h hz0]
      simp [List.filterMap_cons, parseName_append_ws z a ha]

theorem namesOf_append_ws_aux (a : Char) (ha : isPySpace a = true) :
    ∀ (k : Nat) (z : List Char), z.length ≤ k → namesOfL (z ++ [a]) = namesOfL z := by
  intro k
  induction k with
  | zero =>
    intro z hz
    have hz0 : z = [] := by
      cases z with
      | nil => rfl
      | cons c cs => simp at hz
    subst hz0
    exact namesOf_append_ws_nonl a ha [] (by simp)
  | succ k ih =>
    intro z hz
    rcases nl_decomp z with h | ⟨w, rest, hzw, hw⟩
    · exact namesOf_append_ws_nonl a ha z h
    · subst hzw
      have hlen : rest.length ≤ k := by
        simp [List.length_append] at hz
        omega
      have e1 : (w ++ '\n' :: rest) ++ [a] = w ++ '\n' :: (rest ++ [a]) := by simp
      rw [e1]
      unfold namesOfL
      rw [splitlines_append_line w (rest ++ [a]) hw, splitlines_append_line w rest hw]
      have hr := ih rest hlen
      unfold namesOfL at hr
      rw [List.filterMap_cons, List.filterMap_cons, hr]

theorem namesOf_append_ws (a : Char) (ha : isPySpace a = true) (z : List Char) :
    namesOfL (z ++ [a]) = namesOfL z :=
  namesOf_append_ws_aux a ha z.length z (Nat.le_refl _)

theorem namesOf_rstrip (x : List Char) : namesOfL (rstripL x) = namesOfL x := by
  induction x using List.reverseRecOn with
  | nil => rfl
  | append_singleton z a ih =>
    by_cases ha : isPySpace a = true
    · rw [rstripL_append_ws z a ha, ih, namesOf_append_ws a ha z]
    · have haf : isPySpace a = false := by
        cases h : isPySpace a with
        | false => rfl
        | true => exact absurd h ha
      rw [rstripL_append_nonws z a haf]

theorem namesOf_strip (x : List Char) : namesOfL (stripL x) = namesOfL x := by
  unfold stripL
  rw [namesOf_rstrip, namesOf_lstrip]

theorem joinWithNL_cons (l : List Char) (ls : List (List Char)) (h : ls ≠ []) :
    joinWithNL (l :: ls) = l ++ '\n' :: joinWithNL ls := by
  cases ls with
  | nil => exact absurd rfl h
  | cons m ms => rfl

theorem joinWithNL_append (xs ys : List (List Char)) (hx : xs ≠ []) (hy : ys ≠ []) :
    joinWithNL (xs ++ ys) = joinWithNL xs ++ '\n' :: joinWithNL ys := by
  induction xs with
  | nil => exact absurd rfl hx
  | cons x xt ih =>
    cases xt with
    | nil =>
      rw [List.cons_append, List.nil_append, joinWithNL_cons x ys hy]
      rfl
    | cons x2 xt2 =>
      rw [List.cons_append, joinWithNL_cons x (x2 :: xt2 ++ ys) (by simp),
        ih (by simp), joinWithNL_cons x (x2 :: xt2) (by simp)]
      simp

theorem mem_joinWithNL {c : Char} (ls : List (List Char)) (h : c ∈ joinWithNL ls) :
    c = '\n' ∨ ∃ l ∈ ls, c ∈ l := by
  induction ls with
  | nil => simp [joinWithNL] at h
  | cons l rest ih =>
    cases rest with
    | nil =>
      right
      exact ⟨l, by simp, h⟩
    | cons m ms =>
      rw [joinWithNL_cons l (m :: ms) (by simp)] at h
      rcases List.mem_append.mp h with h1 | h2
      · right
        exact ⟨l, by simp, h1⟩
      · rcases List.mem_cons.mp h2 with he | h3
        · left
          exact he
        · rcases ih h3 with h4 | ⟨l2, hl2, hc2⟩
          · left
            exact h4
          · right
            exact ⟨l2, by simp [hl2], hc2⟩

theorem joinWithNL_last_ext (xs : List (List Char)) (a b : List Char) :
    joinWithNL (xs ++ [a ++ b]) = joinWithNL (xs ++ [a]) ++ b := by
  cases hx : xs with
  | nil => rfl
  | cons x xt =>
    rw [← hx, joinWithNL_append xs [a ++ b] (by simp [hx]) (by simp),
      joinWithNL_append xs [a] (by simp [hx]) (by simp)]
    simp [joinWithNL]



theorem dropPre_self (p r : List Char) : dropPre p (p ++ r) = some r := by
  simp [dropPre, isPrefixOf_self_append, List.drop_left]

theorem capPS_no_close (l r : List Char) (h : ')' ∉ l) :
    capParenSemi (l ++ ')' :: ';' :: r) = some l := by
  induction l with
  | nil => rfl
  | cons c cs ih =>
    have hc : c ≠ ')' := fun he => h (by simp [he])
    have h2 : ')' ∉ cs := fun hm => h (by simp [hm])
    cases cs with
    | nil =>
      show capParenSemi (c :: ')' :: ';' :: r) = some [c]
      rw [capParenSemi]
      have hcap : capParenSemi (')' :: ';' :: r) = some [] := rfl
      simp [hc, hcap]
    | cons c2 cs2 =>
      show capParenSemi (c :: c2 :: (cs2 ++ ')' :: ';' :: r)) = some (c :: c2 :: cs2)
      rw [capParenSemi]
      have hr := ih h2
      rw [show (c2 :: cs2) ++ ')' :: ';' :: r = c2 :: (cs2 ++ ')' :: ';' :: r) from rfl] at hr
      simp [hc, hr]

theorem scan_skip (l r : List Char) (h : ')' ∉ l) :
    scanGroupCloses (l ++ ')' :: r) = (afterParen r).orElse (fun _ => scanGroupCloses r) := by
  induction l with
  | nil =>
    rw [List.nil_append, scanGroupCloses]
    simp
  | cons c cs ih =>
    have hc : c ≠ ')' := fun he => h (by simp [he])
    rw [List.cons_append, scanGroupCloses]
    simp [hc, ih (fun hm => h (by simp [hm]))]

theorem searchPos_head (f : List Char → Option (List Char)) (l : List Char) (v : List Char)
    (h : f l = some v) (hne : l ≠ []) : searchPos f l = some v := by
  cases l with
  | nil => exact absurd rfl hne
  | cons c cs =>
    rw [searchPos]
    simp [h]

theorem splitWsGo_space_nil (l : List Char) : splitWsGo (' ' :: l) [] = splitWsGo l [] := rfl

theorem rstripSetL_append_member (s z : List Char) (a : Char) (h : s.contains a = true) :
    rstripSetL s (z ++ [a]) = rstripSetL s z := by
  unfold rstripSetL
  rw [List.reverse_append]
  simp [List.dropWhile_cons]
  intro hn
  exact absurd (by simpa using h) hn

theorem stripL_cons_ws (c : Char) (hc : isPySpace c = true) (l : List Char) :
    stripL (c :: l) = stripL l := by
  unfold stripL lstripL
  rw [List.dropWhile_cons, hc]
  simp

theorem wsAttempts_one (t R : List Char) (c : Char) (cs : List Char) (ht : t = c :: cs)
    (hc : isPySpace c = false) :
    wsPlusAttempts (' ' :: (t ++ R)) = [t ++ R] := by
  subst ht
  have h1 : (' ' :: (c :: cs ++ R)).takeWhile isPySpace = [' '] := by
    rw [show (c :: cs) ++ R = c :: (cs ++ R) from rfl, List.takeWhile_cons, List.takeWhile_cons]
    simp [hc, show isPySpace ' ' = true from rfl]
  unfold wsPlusAttempts
  rw [h1]
  rfl



theorem core_of_decorated (mid suf : List Char)
    (hm0 : mid ≠ [])
    (hh : ∀ c ∈ mid.head?, isPySpace c = false)
    (hl : ∀ c ∈ mid.getLast?, goodIdentChar c = true)
    (hs : ∀ c ∈ mid, c ≠ '/')
    (hsuf : suf = [] ∨ suf = [',']) :
    stripL (rstripSetL [',', ';']
      (stripL (takeBeforeL "//".data (' ' :: ' ' :: (mid ++ suf))))) = mid := by
  have hns : ∀ c ∈ ' ' :: ' ' :: (mid ++ suf), c ≠ '/' := by
    intro c hc
    rcases List.mem_cons.mp hc with rfl | hc2
    · decide
    · rcases List.mem_cons.mp hc2 with rfl | hc3
      · decide
      · rcases List.mem_append.mp hc3 with h3 | h4
        · exact hs c h3
        · rcases hsuf with rfl | rfl
          · simp at h4
          · simp at h4
            subst h4
            decide
  rw [takeBefore_no_slash _ hns]
  rw [stripL_cons_ws ' ' (by decide), stripL_cons_ws ' ' (by decide)]
  obtain ⟨mc, mrest, rfl⟩ : ∃ mc mrest, mid = mc :: mrest := by
    cases mid with
    | nil => exact absurd rfl hm0
    | cons a b => exact ⟨a, b, rfl⟩
  have hmc : isPySpace mc = false := hh mc rfl
  have hlast : ∀ c ∈ (mc :: mrest).getLast?, isPySpace c = false :=
    fun c hc => goodIdentChar_not_ws c (hl c hc)
  have hlastset : ∀ c ∈ (mc :: mrest).getLast?, List.contains [',', ';'] c = false := by
    intro c hc
    have hg := hl c hc
    have h1 : c ≠ ',' := goodChar_ne c ',' hg (by decide)
    have h2 : c ≠ ';' := goodChar_ne c ';' hg (by decide)
    simp [List.contains, h1, h2]
  have hhead : ∀ c ∈ (mc :: mrest).head?, isPySpace c = false := by
    intro c hc
    simp at hc
    subst hc
    exact hmc
  rcases hsuf with rfl | rfl
  · rw [List.append_nil]
    have e2 : stripL (mc :: mrest) = mc :: mrest := stripL_eq_self _ hhead hlast
    rw [e2, rstripSetL_eq_self _ _ hlastset, e2]
  · have hstrip : stripL ((mc :: mrest) ++ [',']) = (mc :: mrest) ++ [','] := by
      apply stripL_eq_self
      · intro c hc
        simp at hc
        subst hc
        exact hmc
      · intro c hc
        rw [List.getLast?_append] at hc
        simp at hc
        subst hc
        decide
    rw [hstrip, rstripSetL_append_member _ _ ',' (by decide), rstripSetL_eq_self _ _ hlastset]
    exact stripL_eq_self _ hhead hlast

theorem parse_decorated (mid suf : List Char)
    (hm0 : mid ≠ [])
    (hh : ∀ c ∈ mid.head?, isPySpace c = false)
    (hl : ∀ c ∈ mid.getLast?, goodIdentChar c = true)
    (hs : ∀ c ∈ mid, c ≠ '/')
    (hsuf : suf = [] ∨ suf = [',']) :
    parse_sv_signal_info (⟨' ' :: ' ' :: (mid ++ suf)⟩ : String) =
      parse_sv_signal_info (⟨mid⟩ : String) := by
  apply parse_eq_of_same_core
  show stripL (rstripSetL [',', ';']
      (stripL (takeBeforeL "//".data (' ' :: ' ' :: (mid ++ suf))))) =
    stripL (rstripSetL [',', ';'] (stripL (takeBeforeL "//".data mid)))
  rw [core_of_decorated mid suf hm0 hh hl hs hsuf]
  exact (core_eq_self mid hh hl hs).symm

theorem parse_shape_plain2 (n : String) (hn : goodIdent n) :
    parse_sv_signal_info (⟨"input".data ++ ' ' :: ' ' :: n.data⟩ : String) =
      (some n, some "") := by
  obtain ⟨hn0, hn1, hn2⟩ := hn
  have hnc : ∀ c ∈ n.data, goodIdentChar c = true := List.all_eq_true.mp hn1
  obtain ⟨nm, nb, hnd⟩ := exists_concat_of_ne_nil hn0
  have hnlast : goodIdentChar nb = true := hnc nb (by rw [hnd]; simp)
  have hs : ∀ c ∈ "input".data ++ ' ' :: ' ' :: n.data, c ≠ '/' := by
    intro c hc
    rcases List.mem_append.mp hc with h1 | h2
    · fin_cases h1 <;> decide
    · rcases List.mem_cons.mp h2 with rfl | h3
      · decide
      · rcases List.mem_cons.mp h3 with rfl | h4
        · decide
        · exact goodChar_ne c '/' (hnc c h4) (by decide)
  have hgl : ("input".data ++ ' ' :: ' ' :: n.data).getLast? = some nb := by
    rw [hnd]
    have harr : "input".data ++ ' ' :: ' ' :: (nm ++ [nb]) =
        ("input".data ++ ' ' :: ' ' :: nm) ++ [nb] := by simp
    rw [harr, List.getLast?_append]
    rfl
  have hl : ∀ c ∈ ("input".data ++ ' ' :: ' ' :: n.data).getLast?, goodIdentChar c = true := by
    intro c hc
    rw [hgl] at hc
    simp at hc
    subst hc
    exact hnlast
  have hh : ∀ c ∈ ("input".data ++ ' ' :: ' ' :: n.data).head?, isPySpace c = false := by
    intro c hc
    have he : ("input".data ++ ' ' :: ' ' :: n.data).head? = some 'i' := rfl
    rw [he] at hc
    simp at hc
    subst hc
    decide
  have hcore : stripL (rstripSetL [',', ';'] (stripL (takeBeforeL "//".data
      (⟨"input".data ++ ' ' :: ' ' :: n.data⟩ : String).data))) =
      "input".data ++ ' ' :: ' ' :: n.data :=
    core_eq_self _ hh hl hs
  have hsplitD : splitWsL ("input".data ++ ' ' :: ' ' :: n.data) =
      ["input".data, n.data] := by
    unfold splitWsL
    rw [splitWsGo_word "input".data _ [] (by decide)]
    rw [splitWsGo_space ' ' _ _ (by decide) (by decide)]
    rw [splitWsGo_space_nil]
    rw [splitWsGo_fin n.data [] (fun c hc => goodIdentChar_not_ws c (hnc c hc)) hn0]
    rfl
  have hnm : n.data ∉ svKeywords := by simpa using hn2
  have hinm : ("input".data : List Char) ∈ svKeywords := by decide
  rw [parse_sv_signal_info_def, hcore, hsplitD]
  have hfilter : (["input".data, n.data].filter (fun t => !(svKeywords.contains t))) =
      [n.data] := by
    simp [List.filter_cons, hinm, hnm]
  rw [hfilter]
  have hpre : "input".data.isPrefixOf ("input".data ++ ' ' :: ' ' :: n.data) = true :=
    isPrefixOf_self_append _ _
  rw [hpre]
  have hnb : "[".data.isPrefixOf n.data = false := by
    obtain ⟨nh, nt, hnh⟩ : ∃ c t, n.data = c :: t := by
      cases hx : n.data with
      | nil => exact absurd hx hn0
      | cons c cs => exact ⟨c, cs, rfl⟩
    rw [hnh]
    exact isPrefixOf_bracket_false nt nh
      (goodChar_ne nh '[' (hnc nh (by rw [hnh]; simp)) (by decide))
  simp only [if_true, hnb]
  rfl

theorem takeBefore_comment (w : List Char) :
    takeBeforeL "//".data (' ' :: ' ' :: '/' :: '/' :: w) = [' ', ' '] := by
  simp [takeBeforeL, List.isPrefixOf]

theorem comment_core_nil (w : List Char) :
    stripL (rstripSetL [',', ';']
      (stripL (takeBeforeL "//".data (' ' :: ' ' :: '/' :: '/' :: w)))) = [] := by
  rw [takeBefore_comment]
  decide

theorem filterMap_ext_mem {α β : Type} {f g : α → Option β} :
    ∀ (l : List α), (∀ a ∈ l, f a = g a) → l.filterMap f = l.filterMap g := by
  intro l
  induction l with
  | nil => intro _; rfl
  | cons a rest ih =>
    intro h
    rw [List.filterMap_cons, List.filterMap_cons, h a (by simp),
      ih (fun x hx => h x (by simp [hx]))]



theorem midr_facts (n r : String) (hn : goodIdent n) (hr : goodRange r) :
    ("input".data ++ ' ' :: (r.data ++ ' ' :: n.data)) ≠ [] ∧
    (∀ c ∈ ("input".data ++ ' ' :: (r.data ++ ' ' :: n.data)).head?, isPySpace c = false) ∧
    (∀ c ∈ ("input".data ++ ' ' :: (r.data ++ ' ' :: n.data)).getLast?, goodIdentChar c = true) ∧
    (∀ c ∈ "input".data ++ ' ' :: (r.data ++ ' ' :: n.data), c ≠ '/') := by
  obtain ⟨hn0, hn1, hn2⟩ := hn
  obtain ⟨hr0, hr1, hr2⟩ := hr
  have hnc : ∀ c ∈ n.data, goodIdentChar c = true := List.all_eq_true.mp hn1
  have hrc : ∀ c ∈ r.data, goodRangeChar c = true := List.all_eq_true.mp hr2
  obtain ⟨nm, nb, hnd⟩ := exists_concat_of_ne_nil hn0
  have hnlast : goodIdentChar nb = true := hnc nb (by rw [hnd]; simp)
  refine ⟨by simp, ?_, ?_, ?_⟩
  · intro c hc
    have he : ("input".data ++ ' ' :: (r.data ++ ' ' :: n.data)).head? = some 'i' := rfl
    rw [he] at hc
    simp at hc
    subst hc
    decide
  · intro c hc
    have hgl : ("input".data ++ ' ' :: (r.data ++ ' ' :: n.data)).getLast? = some nb := by
      rw [hnd]
      have harr : "input".data ++ ' ' :: (r.data ++ ' ' :: (nm ++ [nb])) =
          ("input".data ++ ' ' :: (r.data ++ ' ' :: nm)) ++ [nb] := by simp
      rw [harr, List.getLast?_append]
      rfl
    rw [hgl] at hc
    simp at hc
    subst hc
    exact hnlast
  · intro c hc
    rcases List.mem_append.mp hc with h1 | h2
    · fin_cases h1 <;> decide
    · rcases List.mem_cons.mp h2 with rfl | h3
      · decide
      · rcases List.mem_append.mp h3 with h4 | h5
        · exact goodChar_ne c '/' (hrc c h4) (by decide)
        · rcases List.mem_cons.mp h5 with rfl | h6
          · decide
          · exact goodChar_ne c '/' (hnc c h6) (by decide)

theorem mid2_facts (n : String) (hn : goodIdent n) :
    ("input".data ++ ' ' :: ' ' :: n.data) ≠ [] ∧
    (∀ c ∈ ("input".data ++ ' ' :: ' ' :: n.data).head?, isPySpace c = false) ∧
    (∀ c ∈ ("input".data ++ ' ' :: ' ' :: n.data).getLast?, goodIdentChar c = true) ∧
    (∀ c ∈ "input".data ++ ' ' :: ' ' :: n.data, c ≠ '/') := by
  obtain ⟨hn0, hn1, hn2⟩ := hn
  have hnc : ∀ c ∈ n.data, goodIdentChar c = true := List.all_eq_true.mp hn1
  obtain ⟨nm, nb, hnd⟩ := exists_concat_of_ne_nil hn0
  have hnlast : goodIdentChar nb = true := hnc nb (by rw [hnd]; simp)
  refine ⟨by simp, ?_, ?_, ?_⟩
  · intro c hc
    have he : ("input".data ++ ' ' :: ' ' :: n.data).head? = some 'i' := rfl
    rw [he] at hc
    simp at hc
    subst hc
    decide
  · intro c hc
    have hgl : ("input".data ++ ' ' :: ' ' :: n.data).getLast? = some nb := by
      rw [hnd]
      have harr : "input".data ++ ' ' :: ' ' :: (nm ++ [nb]) =
          ("input".data ++ ' ' :: ' ' :: nm) ++ [nb] := by simp
      rw [harr, List.getLast?_append]
      rfl
    rw [hgl] at hc
    simp at hc
    subst hc
    exact hnlast
  · intro c hc
    rcases List.mem_append.mp hc with h1 | h2
    · fin_cases h1 <;> decide
    · rcases List.mem_cons.mp h2 with rfl | h3
      · decide
      · rcases List.mem_cons.mp h3 with rfl | h4
        · decide
        · exact goodChar_ne c '/' (hnc c h4) (by decide)



theorem fmt_parse_line (n r v : String) (hn : goodIdent n) (hr : r = "" ∨ goodRange r) :
    parseNameL (formatPort ⟨PType.line, n, r, v⟩).data = some n := by
  unfold parseNameL
  rcases hr with rfl | hrg
  · have hd : (formatPort ⟨PType.line, n, "", v⟩).data =
        ' ' :: ' ' :: (("input".data ++ ' ' :: ' ' :: n.data) ++ [',']) := by
      show ("  input " ++ "" ++ " " ++ n ++ ",").data = _
      simp [List.append_assoc]
    obtain ⟨hm0, hh, hl, hs⟩ := mid2_facts n hn
    rw [show (⟨(formatPort ⟨PType.line, n, "", v⟩).data⟩ : String) =
        (⟨' ' :: ' ' :: (("input".data ++ ' ' :: ' ' :: n.data) ++ [','])⟩ : String) from
      congrArg String.mk hd]
    rw [parse_decorated _ [','] hm0 hh hl hs (Or.inr rfl), parse_shape_plain2 n hn]
  · have hd : (formatPort ⟨PType.line, n, r, v⟩).data =
        ' ' :: ' ' :: (("input".data ++ ' ' :: (r.data ++ ' ' :: n.data)) ++ [',']) := by
      show ("  input " ++ r ++ " " ++ n ++ ",").data = _
      simp [List.append_assoc]
    obtain ⟨hm0, hh, hl, hs⟩ := midr_facts n r hn hrg
    rw [show (⟨(formatPort ⟨PType.line, n, r, v⟩).data⟩ : String) =
        (⟨' ' :: ' ' :: (("input".data ++ ' ' :: (r.data ++ ' ' :: n.data)) ++ [','])⟩ : String) from
      congrArg String.mk hd]
    rw [parse_decorated _ [','] hm0 hh hl hs (Or.inr rfl)]
    have hDs : (⟨"input".data ++ ' ' :: (r.data ++ ' ' :: n.data)⟩ : String) =
        "input " ++ r ++ " " ++ n := by
      have hD : ("input " ++ r ++ " " ++ n).data =
          "input".data ++ ' ' :: (r.data ++ ' ' :: n.data) := by
        simp [List.append_assoc]
      exact (congrArg String.mk hD).symm
    rw [hDs, parse_shape_range n r hn hrg]

theorem fmt_parse_lastLine (n r v : String) (hn : goodIdent n) (hr : r = "" ∨ goodRange r) :
    parseNameL (formatPort ⟨PType.lastLine, n, r, v⟩).data = some n := by
  unfold parseNameL
  rcases hr with rfl | hrg
  · have hd : (formatPort ⟨PType.lastLine, n, "", v⟩).data =
        ' ' :: ' ' :: (("input".data ++ ' ' :: ' ' :: n.data) ++ []) := by
      show ("  input " ++ "" ++ " " ++ n).data = _
      simp [List.append_assoc]
    obtain ⟨hm0, hh, hl, hs⟩ := mid2_facts n hn
    rw [show (⟨(formatPort ⟨PType.lastLine, n, "", v⟩).data⟩ : String) =
        (⟨' ' :: ' ' :: (("input".data ++ ' ' :: ' ' :: n.data) ++ [])⟩ : String) from
      congrArg String.mk hd]
    rw [parse_decorated _ [] hm0 hh hl hs (Or.inl rfl), parse_shape_plain2 n hn]
  · have hd : (formatPort ⟨PType.lastLine, n, r, v⟩).data =
        ' ' :: ' ' :: (("input".data ++ ' ' :: (r.data ++ ' ' :: n.data)) ++ []) := by
      show ("  input " ++ r ++ " " ++ n).data = _
      simp [List.append_assoc]
    obtain ⟨hm0, hh, hl, hs⟩ := midr_facts n r hn hrg
    rw [show (⟨(formatPort ⟨PType.lastLine, n, r, v⟩).data⟩ : String) =
        (⟨' ' :: ' ' :: (("input".data ++ ' ' :: (r.data ++ ' ' :: n.data)) ++ [])⟩ : String) from
      congrArg String.mk hd]
    rw [parse_decorated _ [] hm0 hh hl hs (Or.inl rfl)]
    have hDs : (⟨"input".data ++ ' ' :: (r.data ++ ' ' :: n.data)⟩ : String) =
        "input " ++ r ++ " " ++ n := by
      have hD : ("input " ++ r ++ " " ++ n).data =
          "input".data ++ ' ' :: (r.data ++ ' ' :: n.data) := by
        simp [List.append_assoc]
      exact (congrArg String.mk hD).symm
    rw [hDs, parse_shape_range n r hn hrg]

theorem fmt_parse_comment (n r v : String) :
    parseNameL (formatPort ⟨PType.comment, n, r, v⟩).data = none := by
  unfold parseNameL
  have hd : (formatPort ⟨PType.comment, n, r, v⟩).data =
      ' ' :: ' ' :: '/' :: '/' :: lstripSetL ['-'] v.data := by
    show ("  //" ++ (⟨lstripSetL ['-'] v.data⟩ : String)).data = _
    simp
  rw [show (⟨(formatPort ⟨PType.comment, n, r, v⟩).data⟩ : String) =
      (⟨' ' :: ' ' :: '/' :: '/' :: lstripSetL ['-'] v.data⟩ : String) from
    congrArg String.mk hd]
  have hp : parse_sv_signal_info
      (⟨' ' :: ' ' :: '/' :: '/' :: lstripSetL ['-'] v.data⟩ : String) =
      parse_sv_signal_info "" := by
    apply parse_eq_of_same_core
    show stripL (rstripSetL [',', ';'] (stripL (takeBeforeL "//".data
        (' ' :: ' ' :: '/' :: '/' :: lstripSetL ['-'] v.data)))) = _
    rw [comment_core_nil]
    rfl
  rw [hp]
  rfl

theorem fmt_parse_empty (n r v : String) :
    parseNameL (formatPort ⟨PType.empty, n, r, v⟩).data = none := rfl

theorem fmt_no_close_nl (e : PEntry) (he : portEntryOK e) (c : Char)
    (hc : c ∈ (formatPort e).data) : c ≠ ')' ∧ c ≠ '\n' := by
  rcases e with ⟨t, n, r, v⟩
  cases t with
  | line =>
    obtain ⟨⟨hn0, hn1, hn2⟩, hr⟩ := he.1 (Or.inl rfl)
    have hnc := List.all_eq_true.mp hn1
    have hrc : ∀ x ∈ r.data, goodRangeChar x = true := by
      rcases hr with hre | ⟨_, _, hr2⟩
      · intro x hx
        have hre2 : r = "" := hre
        rw [show r.data = [] from by rw [hre2]] at hx
        exact absurd hx (List.not_mem_nil x)
      · exact List.all_eq_true.mp hr2
    have hsplit : (formatPort ⟨PType.line, n, r, v⟩).data =
        ("  input " : String).data ++ (r.data ++ ((" " : String).data ++
          (n.data ++ ("," : String).data))) := by
      show ("  input " ++ r ++ " " ++ n ++ ",").data = _
      simp [List.append_assoc]
    rw [hsplit] at hc
    rcases List.mem_append.mp hc with h | h2
    · constructor <;> (intro he2; subst he2; revert h; decide)
    · rcases List.mem_append.mp h2 with h | h3
      · exact ⟨goodChar_ne c ')' (hrc c h) (by decide),
          goodChar_ne c '\n' (hrc c h) (by decide)⟩
      · rcases List.mem_append.mp h3 with h | h4
        · constructor <;> (intro he2; subst he2; revert h; decide)
        · rcases List.mem_append.mp h4 with h | h
          · exact ⟨goodChar_ne c ')' (hnc c h) (by decide),
              goodChar_ne c '\n' (hnc c h) (by decide)⟩
          · constructor <;> (intro he2; subst he2; revert h; decide)
  | lastLine =>
    obtain ⟨⟨hn0, hn1, hn2⟩, hr⟩ := he.1 (Or.inr rfl)
    have hnc := List.all_eq_true.mp hn1
    have hrc : ∀ x ∈ r.data, goodRangeChar x = true := by
      rcases hr with hre | ⟨_, _, hr2⟩
      · intro x hx
        have hre2 : r = "" := hre
        rw [show r.data = [] from by rw [hre2]] at hx
        exact absurd hx (List.not_mem_nil x)
      · exact List.all_eq_true.mp hr2
    have hsplit : (formatPort ⟨PType.lastLine, n, r, v⟩).data =
        ("  input " : String).data ++ (r.data ++ ((" " : String).data ++ n.data)) := by
      show ("  input " ++ r ++ " " ++ n).data = _
      simp [List.append_assoc]
    rw [hsplit] at hc
    rcases List.mem_append.mp hc with h | h2
    · constructor <;> (intro he2; subst he2; revert h; decide)
    · rcases List.mem_append.mp h2 with h | h3
      · exact ⟨goodChar_ne c ')' (hrc c h) (by decide),
          goodChar_ne c '\n' (hrc c h) (by decide)⟩
      · rcases List.mem_append.mp h3 with h | h
        · constructor <;> (intro he2; subst he2; revert h; decide)
        · exact ⟨goodChar_ne c ')' (hnc c h) (by decide),
            goodChar_ne c '\n' (hnc c h) (by decide)⟩
  | comment =>
    obtain ⟨hv1, hv2⟩ := he.2 rfl
    have hsplit : (formatPort ⟨PType.comment, n, r, v⟩).data =
        ("  //" : String).data ++ lstripSetL ['-'] v.data := by
      show ("  //" ++ (⟨lstripSetL ['-'] v.data⟩ : String)).data = _
      simp
    rw [hsplit] at hc
    rcases List.mem_append.mp hc with h | h
    · constructor <;> (intro he2; subst he2; revert h; decide)
    · have hsub : c ∈ v.data := (List.dropWhile_sublist _).subset h
      exact ⟨fun he2 => hv1 (he2 ▸ hsub), fun he2 => hv2 (he2 ▸ hsub)⟩
  | empty =>
    have : (formatPort ⟨PType.empty, n, r, v⟩).data = [] := rfl
    rw [this] at hc
    exact absurd hc (List.not_mem_nil c)



theorem findSome_one {α β : Type} (f : α → Option β) (x : α) :
    List.findSome? f [x] = f x := by
  cases h : f x <;> simp [List.findSome?_cons, h]

theorem extract_ports_eq (top P : String) (pls : List String)
    (tc : Char) (tcs : List Char) (htd : top.data = tc :: tcs) (htc : isPySpace tc = false)
    (hP : ')' ∉ P.data)
    (hpl : ∀ l ∈ pls, ')' ∉ l.data) :
    (extract_module_blocks (joinNLStr (["module " ++ top, "  #(", P, "  )", "  ("] ++ pls ++ ["  );", "endmodule"])) top).2
      = (⟨stripL ('\n' :: joinWithNL (pls.map String.data ++ [[' ', ' ']]))⟩ : String) := by
  have hTd : (joinNLStr (["module " ++ top, "  #(", P, "  )", "  ("] ++ pls ++ ["  );", "endmodule"])).data =
      "module".data ++ (' ' :: (top.data ++ ('\n' :: ' ' :: ' ' :: '#' :: '(' :: '\n' :: (P.data ++ ('\n' :: ' ' :: ' ' :: ')' :: '\n' :: ' ' :: ' ' :: '(' :: '\n' :: joinWithNL (pls.map String.data ++ [[' ', ' ', ')', ';'], ('e' :: 'n' :: 'd' :: 'm' :: 'o' :: 'd' :: 'u' :: 'l' :: 'e' :: [])])))))) := by
    show joinWithNL ((["module " ++ top, "  #(", P, "  )", "  ("] ++ pls ++ ["  );", "endmodule"]).map String.data) = _
    rw [show (["module " ++ top, "  #(", P, "  )", "  ("] ++ pls ++ ["  );", "endmodule"]).map String.data =
        ("module " ++ top).data :: ("  #(" : String).data :: P.data :: ("  )" : String).data ::
          ("  (" : String).data ::
            (pls.map String.data ++ [("  );" : String).data, ("endmodule" : String).data]) from by simp]
    rw [joinWithNL_cons _ _ (by simp), joinWithNL_cons _ _ (by simp),
      joinWithNL_cons _ _ (by simp), joinWithNL_cons _ _ (by simp),
      joinWithNL_cons _ _ (by simp)]
    simp
  have hnp : ')' ∉ '\n' :: (P.data ++ ['\n', ' ', ' ']) := by
    intro hm
    rcases List.mem_cons.mp hm with he | hm2
    · exact absurd he (by decide)
    · rcases List.mem_append.mp hm2 with h1 | h2
      · exact hP h1
      · revert h2
        decide
  have hcapnp : ')' ∉ '\n' :: joinWithNL (pls.map String.data ++ [[' ', ' ']]) := by
    intro hm
    rcases List.mem_cons.mp hm with he | hm2
    · exact absurd he (by decide)
    · rcases mem_joinWithNL _ hm2 with he | ⟨l, hl, hcm⟩
      · exact absurd he (by decide)
      · rcases List.mem_append.mp hl with h1 | h2
        · obtain ⟨s, hs, rfl⟩ := List.mem_map.mp h1
          exact hpl s hs hcm
        · simp at h2
          subst h2
          revert hcm
          decide
  have hBdec : '\n' :: (joinWithNL (pls.map String.data ++ [[' ', ' ', ')', ';'], ('e' :: 'n' :: 'd' :: 'm' :: 'o' :: 'd' :: 'u' :: 'l' :: 'e' :: [])])) =
      ('\n' :: joinWithNL (pls.map String.data ++ [[' ', ' ']])) ++ ')' :: ';' :: ('\n' :: ('e' :: 'n' :: 'd' :: 'm' :: 'o' :: 'd' :: 'u' :: 'l' :: 'e' :: [])) := by
    have hb1 : pls.map String.data ++ [[' ', ' ', ')', ';'], ('e' :: 'n' :: 'd' :: 'm' :: 'o' :: 'd' :: 'u' :: 'l' :: 'e' :: [])] =
        (pls.map String.data ++ [[' ', ' ', ')', ';']]) ++ [('e' :: 'n' :: 'd' :: 'm' :: 'o' :: 'd' :: 'u' :: 'l' :: 'e' :: [])] := by
      simp
    have hb2 : joinWithNL ((pls.map String.data ++ [[' ', ' ', ')', ';']]) ++
        [('e' :: 'n' :: 'd' :: 'm' :: 'o' :: 'd' :: 'u' :: 'l' :: 'e' :: [])]) =
        joinWithNL (pls.map String.data ++ [[' ', ' ', ')', ';']]) ++
          '\n' :: ('e' :: 'n' :: 'd' :: 'm' :: 'o' :: 'd' :: 'u' :: 'l' :: 'e' :: []) :=
      joinWithNL_append _ _ (by simp) (by simp)
    have hb3 : joinWithNL (pls.map String.data ++ [[' ', ' ', ')', ';']]) =
        joinWithNL (pls.map String.data ++ [[' ', ' ']]) ++ [')', ';'] := by
      rw [show ([' ', ' ', ')', ';'] : List Char) = [' ', ' '] ++ [')', ';'] from rfl,
        joinWithNL_last_ext]
    rw [show joinWithNL (pls.map String.data ++ [[' ', ' ', ')', ';'], ('e' :: 'n' :: 'd' :: 'm' :: 'o' :: 'd' :: 'u' :: 'l' :: 'e' :: [])]) = joinWithNL ((pls.map String.data ++ [[' ', ' ', ')', ';']]) ++
        [('e' :: 'n' :: 'd' :: 'm' :: 'o' :: 'd' :: 'u' :: 'l' :: 'e' :: [])]) from by rw [← hb1]]
    rw [hb2, hb3]
    simp
  have htry : tryPortsAt top.data (joinNLStr (["module " ++ top, "  #(", P, "  )", "  ("] ++ pls ++ ["  );", "endmodule"])).data = some ('\n' :: joinWithNL (pls.map String.data ++ [[' ', ' ']])) := by
    unfold tryPortsAt
    rw [hTd, dropPre_self]
    rw [Option.some_bind]
    rw [wsAttempts_one top.data _ tc tcs htd htc]
    rw [findSome_one]
    rw [dropPre_self, Option.some_bind]
    have hdw : ('\n' :: ' ' :: ' ' :: '#' :: '(' :: '\n' :: (P.data ++ ('\n' :: ' ' :: ' ' :: ')' :: '\n' :: ' ' :: ' ' :: '(' :: '\n' :: joinWithNL (pls.map String.data ++ [[' ', ' ', ')', ';'], ('e' :: 'n' :: 'd' :: 'm' :: 'o' :: 'd' :: 'u' :: 'l' :: 'e' :: [])])))).dropWhile isPySpace = '#' :: '(' :: ('\n' :: (P.data ++ ('\n' :: ' ' :: ' ' :: ')' :: '\n' :: ' ' :: ' ' :: '(' :: '\n' :: joinWithNL (pls.map String.data ++ [[' ', ' ', ')', ';'], ('e' :: 'n' :: 'd' :: 'm' :: 'o' :: 'd' :: 'u' :: 'l' :: 'e' :: [])])))) := by
      rw [List.dropWhile_cons]
      simp only [show isPySpace '\n' = true from by decide, if_true]
      rw [List.dropWhile_cons]
      simp only [show isPySpace ' ' = true from by decide, if_true]
      rw [List.dropWhile_cons]
      simp only [show isPySpace ' ' = true from by decide, if_true]
      rw [List.dropWhile_cons]
      simp only [show isPySpace '#' = false from by decide, Bool.false_eq_true, if_false]
    rw [hdw]
    have e5 : dropPre "#(".data ('#' :: '(' :: ('\n' :: (P.data ++ ('\n' :: ' ' :: ' ' :: ')' :: '\n' :: ' ' :: ' ' :: '(' :: '\n' :: joinWithNL (pls.map String.data ++ [[' ', ' ', ')', ';'], ('e' :: 'n' :: 'd' :: 'm' :: 'o' :: 'd' :: 'u' :: 'l' :: 'e' :: [])]))))) = some ('\n' :: (P.data ++ ('\n' :: ' ' :: ' ' :: ')' :: '\n' :: ' ' :: ' ' :: '(' :: '\n' :: joinWithNL (pls.map String.data ++ [[' ', ' ', ')', ';'], ('e' :: 'n' :: 'd' :: 'm' :: 'o' :: 'd' :: 'u' :: 'l' :: 'e' :: [])])))) := dropPre_self _ _
    rw [e5, Option.some_bind]
    have e6 : scanGroupCloses ('\n' :: (P.data ++ ('\n' :: ' ' :: ' ' :: ')' :: '\n' :: ' ' :: ' ' :: '(' :: '\n' :: joinWithNL (pls.map String.data ++ [[' ', ' ', ')', ';'], ('e' :: 'n' :: 'd' :: 'm' :: 'o' :: 'd' :: 'u' :: 'l' :: 'e' :: [])])))) =
        (afterParen ('\n' :: ' ' :: ' ' :: '(' :: '\n' :: joinWithNL (pls.map String.data ++ [[' ', ' ', ')', ';'], ('e' :: 'n' :: 'd' :: 'm' :: 'o' :: 'd' :: 'u' :: 'l' :: 'e' :: [])]))).orElse (fun _ => scanGroupCloses ('\n' :: ' ' :: ' ' :: '(' :: '\n' :: joinWithNL (pls.map String.data ++ [[' ', ' ', ')', ';'], ('e' :: 'n' :: 'd' :: 'm' :: 'o' :: 'd' :: 'u' :: 'l' :: 'e' :: [])]))) := by
      rw [show ('\n' :: (P.data ++ ('\n' :: ' ' :: ' ' :: ')' :: '\n' :: ' ' :: ' ' :: '(' :: '\n' :: joinWithNL (pls.map String.data ++ [[' ', ' ', ')', ';'], ('e' :: 'n' :: 'd' :: 'm' :: 'o' :: 'd' :: 'u' :: 'l' :: 'e' :: [])])))) = ('\n' :: (P.data ++ ['\n', ' ', ' '])) ++ ')' :: ('\n' :: ' ' :: ' ' :: '(' :: '\n' :: joinWithNL (pls.map String.data ++ [[' ', ' ', ')', ';'], ('e' :: 'n' :: 'd' :: 'm' :: 'o' :: 'd' :: 'u' :: 'l' :: 'e' :: [])])) from by simp]
      exact scan_skip _ _ hnp
    rw [e6]
    have e7 : afterParen ('\n' :: ' ' :: ' ' :: '(' :: '\n' :: joinWithNL (pls.map String.data ++ [[' ', ' ', ')', ';'], ('e' :: 'n' :: 'd' :: 'm' :: 'o' :: 'd' :: 'u' :: 'l' :: 'e' :: [])])) = some ('\n' :: joinWithNL (pls.map String.data ++ [[' ', ' ']])) := by
      unfold afterParen
      have e7a : ('\n' :: ' ' :: ' ' :: '(' :: '\n' :: joinWithNL (pls.map String.data ++ [[' ', ' ', ')', ';'], ('e' :: 'n' :: 'd' :: 'm' :: 'o' :: 'd' :: 'u' :: 'l' :: 'e' :: [])])).dropWhile isPySpace = '(' :: '\n' :: (joinWithNL (pls.map String.data ++ [[' ', ' ', ')', ';'], ('e' :: 'n' :: 'd' :: 'm' :: 'o' :: 'd' :: 'u' :: 'l' :: 'e' :: [])])) := by
        rw [List.dropWhile_cons]
        simp only [show isPySpace '\n' = true from by decide, if_true]
        rw [List.dropWhile_cons]
        simp only [show isPySpace ' ' = true from by decide, if_true]
        rw [List.dropWhile_cons]
        simp only [show isPySpace ' ' = true from by decide, if_true]
        rw [List.dropWhile_cons]
        simp only [show isPySpace '(' = false from by decide, Bool.false_eq_true, if_false]
      rw [e7a]
      have e7b : dropPre "(".data ('(' :: '\n' :: (joinWithNL (pls.map String.data ++ [[' ', ' ', ')', ';'], ('e' :: 'n' :: 'd' :: 'm' :: 'o' :: 'd' :: 'u' :: 'l' :: 'e' :: [])]))) = some ('\n' :: (joinWithNL (pls.map String.data ++ [[' ', ' ', ')', ';'], ('e' :: 'n' :: 'd' :: 'm' :: 'o' :: 'd' :: 'u' :: 'l' :: 'e' :: [])]))) :=
        dropPre_self _ _
      rw [e7b, Option.some_bind]
      rw [hBdec]
      exact capPS_no_close _ _ hcapnp
    rw [e7]
    rfl
  have hne : (joinNLStr (["module " ++ top, "  #(", P, "  )", "  ("] ++ pls ++ ["  );", "endmodule"])).data ≠ [] := by
    rw [hTd]
    simp
  have hq : searchPos (tryPortsAt top.data) (joinNLStr (["module " ++ top, "  #(", P, "  )", "  ("] ++ pls ++ ["  );", "endmodule"])).data = some ('\n' :: joinWithNL (pls.map String.data ++ [[' ', ' ']])) :=
    searchPos_head _ _ _ htry hne
  show (extract_module_blocks (joinNLStr (["module " ++ top, "  #(", P, "  )", "  ("] ++ pls ++ ["  );", "endmodule"])) top).2 = (⟨stripL ('\n' :: joinWithNL (pls.map String.data ++ [[' ', ' ']]))⟩ : String)
  unfold extract_module_blocks
  rw [hq]
  rfl



theorem roundtrip_core (top P : String) (entries : List PEntry)
    (tc : Char) (tcs : List Char) (htd : top.data = tc :: tcs) (htc : isPySpace tc = false)
    (hP : ')' ∉ P.data)
    (hE : ∀ e ∈ entries, portEntryOK e) :
    (pySplitlines (extract_module_blocks
        (joinNLStr (["module " ++ top, "  #(", P, "  )", "  ("]
          ++ format_sv_ports entries ++ ["  );", "endmodule"])) top).2).filterMap
      (fun l => (parse_sv_signal_info l).1)
    = entries.filterMap (fun e =>
        match e.ptype with
        | PType.line => if e.name = "" then none else some e.name
        | PType.lastLine => if e.name = "" then none else some e.name
        | _ => none) := by
  have hpl : ∀ l ∈ format_sv_ports entries, ')' ∉ l.data := by
    intro l hl hm
    obtain ⟨e, he2, rfl⟩ := List.mem_map.mp (by simpa [format_sv_ports] using hl)
    exact absurd rfl (fmt_no_close_nl e (hE e he2) ')' hm).1
  have hnl : ∀ l ∈ [] :: ((format_sv_ports entries).map String.data ++ [[' ', ' ']]),
      '\n' ∉ l := by
    intro l hl
    rcases List.mem_cons.mp hl with rfl | hl2
    · simp
    · rcases List.mem_append.mp hl2 with h1 | h2
      · obtain ⟨s, hs, rfl⟩ := List.mem_map.mp h1
        obtain ⟨e, he2, rfl⟩ := List.mem_map.mp (by simpa [format_sv_ports] using hs)
        intro hm
        exact absurd rfl (fmt_no_close_nl e (hE e he2) '\n' hm).2
      · simp at h2
        subst h2
        decide
  rw [extract_ports_eq top P (format_sv_ports entries) tc tcs htd htc hP hpl]
  have hps : ∀ (x : List Char), (pySplitlines (⟨x⟩ : String)).filterMap
      (fun l => (parse_sv_signal_info l).1) = namesOfL x := by
    intro x
    unfold pySplitlines namesOfL parseNameL
    rw [List.filterMap_map]
    rfl
  rw [hps, namesOf_strip]
  rw [show ('\n' :: joinWithNL ((format_sv_ports entries).map String.data ++ [[' ', ' ']])) =
      joinWithNL ([] :: ((format_sv_ports entries).map String.data ++ [[' ', ' ']])) from by
    rw [joinWithNL_cons _ _ (by simp)]
    rfl]
  rw [namesOf_join _ hnl]
  simp only [List.filterMap_cons, parseNameL_nil]
  rw [List.filterMap_append]
  simp only [List.filterMap_cons, List.filterMap_nil,
    show parseNameL [' ', ' '] = none from by decide]
  rw [List.append_nil]
  rw [show format_sv_ports entries = entries.map formatPort from rfl, List.map_map,
    List.filterMap_map]
  apply filterMap_ext_mem
  intro e he2
  show parseNameL (formatPort e).data = _
  rcases e with ⟨t, n, r, v⟩
  cases t with
  | line =>
    have h1 : goodIdent n ∧ (r = "" ∨ goodRange r) := (hE _ he2).1 (Or.inl rfl)
    have hn0 : n ≠ "" := by
      intro he3
      apply h1.1.1
      rw [he3]
    rw [fmt_parse_line n r v h1.1 h1.2]
    simp [hn0]
  | lastLine =>
    have h1 : goodIdent n ∧ (r = "" ∨ goodRange r) := (hE _ he2).1 (Or.inr rfl)
    have hn0 : n ≠ "" := by
      intro he3
      apply h1.1.1
      rw [he3]
    rw [fmt_parse_lastLine n r v h1.1 h1.2]
    simp [hn0]
  | comment =>
    rw [fmt_parse_comment]
  | empty =>
    rw [fmt_parse_empty]



theorem roundtripPortNames_def (content top : String) :
    roundtripPortNames content top =
      (pySplitlines (extract_module_blocks
        (joinNLStr (["module " ++ top, "  #(",
            format_sv_parameters (classify_vhdl_generic_lines (read_vhdl_generics content)),
            "  )", "  ("]
          ++ format_sv_ports (classify_vhdl_port_lines (read_vhdl_port content))
          ++ ["  );", "endmodule"])) top).2).filterMap
        (fun l => (parse_sv_signal_info l).1) := rfl

theorem directPortNames_def (content : String) :
    directPortNames content =
      (classify_vhdl_port_lines (read_vhdl_port content)).filterMap (fun e =>
        match e.ptype with
        | PType.line => if e.name = "" then none else some e.name
        | PType.lastLine => if e.name = "" then none else some e.name
        | _ => none) := rfl

/-- C6 (corrected): the round-trip is exact only on well-formed entries.  For
every VHDL declaration whose classified port entries all carry a single clean
identifier (and an optional clean bracketed range, comments free of `)` and
newlines) and whose translated parameter block contains no `)`, translating
with the Alternate-Syntax Translator and re-extracting the port block with the
Signature Extractor yields, via per-line signal parsing, exactly the ordered
names of the directly classified original port block.  Port lines on which the
Python `extract_range` would raise `ValueError` (a first parenthesized group
with two or more `downto`s) are excluded by the `rangeCrashFree` hypothesis,
since the program produces no output at all there.  The frozen claim's
unconditional form is refuted by `c6_counterexample`: a multi-name VHDL port
line breaks the equality. -/
theorem c6_roundtrip_amended (content top : String)
    (htop : top.data ≠ [] ∧ top.data.all goodIdentChar = true)
    (hP : ')' ∉ (format_sv_parameters
      (classify_vhdl_generic_lines (read_vhdl_generics content))).data)
    (hE : ∀ e ∈ classify_vhdl_port_lines (read_vhdl_port content), portEntryOK e)
    (_hcrash : ∀ l ∈ read_vhdl_port content, rangeCrashFree l = true) :
    roundtripPortNames content top = directPortNames content := by
  obtain ⟨h0, hall⟩ := htop
  obtain ⟨tc, tcs, htd⟩ : ∃ c cs, top.data = c :: cs := by
    cases hx : top.data with
    | nil => exact absurd hx h0
    | cons c cs => exact ⟨c, cs, rfl⟩
  have htc : isPySpace tc = false := by
    have hg := List.all_eq_true.mp hall tc (by rw [htd]; simp)
    exact goodIdentChar_not_ws tc hg
  rw [roundtripPortNames_def, directPortNames_def]
  exact roundtrip_core top _ _ tc tcs htd htc hP hE

/-- C6 counterexample: on a VHDL port block that declares two signals in one
line (`a, b : in std_logic`), translating and re-extracting does not reproduce
the directly classified port names: the direct names are `["a, b", "c"]` while
the round-trip parses back `["a,", "c"]`. -/
theorem c6_counterexample :
    roundtripPortNames c6Bad "top" ≠ directPortNames c6Bad := by decide

/-- Witness for C6 at concrete inputs: a two-port VHDL block satisfying every
hypothesis (clean entries, no `)` in the parameter text, every port line
crash-free), on which the round-trip names equal the direct names. -/
theorem c6_witness :
    (("top" : String).data ≠ [] ∧ ("top" : String).data.all goodIdentChar = true) ∧
    ')' ∉ (format_sv_parameters
      (classify_vhdl_generic_lines (read_vhdl_generics c6Good))).data ∧
    roundtripPortNames c6Good "top" = directPortNames c6Good ∧
    directPortNames c6Good = ["clk", "data_i"] :=
  ⟨⟨by decide, by decide⟩, by decide,
   c6_roundtrip_amended c6Good "top" ⟨by decide, by decide⟩ (by decide) (by decide)
     (by decide),
   by decide⟩


end EnvBuilder
